import Mathlib

/-!
Verification of the money-keeper content pipeline (`src/automation/`).

The Python code is shallowly embedded: JSON-like Python values become the
inductive type `JVal`, Python dicts become ordered association lists,
exceptions become `Except PyErr`, and every LLM/network call becomes an
oracle input (`Env`).  Numbers are modelled as rationals (JSON decimal
literals are exact rationals; IEEE-754 rounding is outside the model and
no analysed behaviour depends on it).
-/

namespace MoneyKeeper

/-- Python exception classes that the embedded code can raise. -/
inductive PyErr where
  | attributeError
  | valueError (msg : String)
  deriving Repr, DecidableEq

/-- JSON-like Python values: `None`, bools, numbers, strings, lists, dicts.
Dicts are ordered association lists (Python dicts preserve insertion order). -/
inductive JVal where
  | null
  | bool (b : Bool)
  | num (q : ℚ)
  | str (s : String)
  | arr (xs : List JVal)
  | obj (fields : List (String × JVal))
  deriving Repr

/-- Python truthiness: `None`, `False`, `0`, `""`, `[]` and `` {} `` are falsy. -/
def JVal.truthy : JVal → Bool
  | .null => false
  | .bool b => b
  | .num q => decide (q ≠ 0)
  | .str s => !s.isEmpty
  | .arr xs => !xs.isEmpty
  | .obj fs => !fs.isEmpty

/-- First-match association-list lookup (Python dict lookup; real dicts have
unique keys, so first match is the match). -/
def alookup : List (String × JVal) → String → Option JVal
  | [], _ => none
  | (k, v) :: rest, key => if k = key then some v else alookup rest key

/-- `key in d` for a Python dict. -/
def hasKey (fs : List (String × JVal)) (key : String) : Bool :=
  (alookup fs key).isSome

/-- `d.get(key, default)` on a value known to be a dict. -/
def objGetD (fs : List (String × JVal)) (key : String) (dflt : JVal) : JVal :=
  (alookup fs key).getD dflt

/-- `d[key] = v`: replace in place if the key exists, else append
(Python dicts keep the original insertion position on update). -/
def objSet : List (String × JVal) → String → JVal → List (String × JVal)
  | [], key, v => [(key, v)]
  | (k, w) :: rest, key, v =>
      if k = key then (k, v) :: rest else (k, w) :: objSet rest key v

/-- `d.setdefault(key, [x1..xn])`-then-nothing: insert a list default when the
key is absent; when present, leave the dict unchanged. -/
def setdefaultKeep (fs : List (String × JVal)) (key : String) (dflt : JVal) :
    List (String × JVal) :=
  if hasKey fs key then fs else fs ++ [(key, dflt)]

/-- `d.setdefault(key, []).extend(items)` / `.append(item)`: the existing value
must be a list (otherwise Python raises `AttributeError` on `.extend`). -/
def setdefaultExtend (fs : List (String × JVal)) (key : String)
    (items : List JVal) : Except PyErr (List (String × JVal)) :=
  match alookup fs key with
  | some (.arr xs) => .ok (objSet fs key (.arr (xs ++ items)))
  | some _ => .error .attributeError
  | none => .ok (fs ++ [(key, .arr items)])

/-- The whitespace class used by Python `str.strip` (ASCII whitespace plus the
common Unicode space code points; exotic Unicode spaces are not exercised by
any analysed input). -/
def pyIsSpace (c : Char) : Bool :=
  c = ' ' || c = '\t' || c = '\n' || c = '\r' || c = '\x0b' || c = '\x0c' ||
  c.toNat = 0x1c || c.toNat = 0x1d || c.toNat = 0x1e || c.toNat = 0x1f ||
  c.toNat = 0x85 || c.toNat = 0xa0 || c.toNat = 0x2028 || c.toNat = 0x2029

/-- `s.strip()`. -/
def pyStrip (s : String) : String :=
  ⟨((s.toList.dropWhile pyIsSpace).reverse.dropWhile pyIsSpace).reverse⟩

/-- `v.get(key, default)` on an arbitrary value: only dicts have `.get`,
anything else raises `AttributeError`. -/
def pyGet (v : JVal) (key : String) (dflt : JVal) : Except PyErr JVal :=
  match v with
  | .obj fs => .ok (objGetD fs key dflt)
  | _ => .error .attributeError

/-- `v[0]` on an arbitrary value, as used on the `sections` value: lists yield
their head, strings their first character; dicts raise `KeyError` (the model
has no integer keys), everything else `TypeError`.  All of these exception
classes are caught by the same `except Exception` in the source, so they are
collapsed into `attributeError` here. -/
def pySubscriptZero (v : JVal) : Except PyErr JVal :=
  match v with
  | .arr (x :: _) => .ok x
  | .str s =>
      match s.toList with
      | c :: _ => .ok (.str ⟨[c]⟩)
      | [] => .error .attributeError
  | _ => .error .attributeError

/-- `len(v.strip()) < n`: raises `AttributeError` unless `v` is a string. -/
def strLenStripLt (v : JVal) (n : Nat) : Except PyErr Bool :=
  match v with
  | .str s => .ok (decide ((pyStrip s).length < n))
  | _ => .error .attributeError

/-- The `try:` block of `validate_writer_output` (pipeline_pages.py:67-75):
extract headline, sections, first body, slug, title, description. -/
def extractDraftFields (draft : JVal) :
    Except PyErr (JVal × JVal × JVal × JVal × JVal × JVal) :=
  match pyGet draft "content" (.obj []) with
  | .error e => .error e
  | .ok content =>
  match pyGet content "hero" (.obj []) with
  | .error e => .error e
  | .ok hero =>
  match pyGet hero "headline" (.str "") with
  | .error e => .error e
  | .ok hero_headline =>
  match pyGet content "sections" (.arr []) with
  | .error e => .error e
  | .ok sections =>
  match (if sections.truthy then
           match pySubscriptZero sections with
           | .error e => .error e
           | .ok s0 => pyGet s0 "body" (.str "")
         else .ok (.str "") : Except PyErr JVal) with
  | .error e => .error e
  | .ok first_body =>
  match pyGet draft "meta" (.obj []) with
  | .error e => .error e
  | .ok meta =>
  match pyGet meta "slug" (.str "") with
  | .error e => .error e
  | .ok slug =>
  match pyGet meta "title" (.str "") with
  | .error e => .error e
  | .ok title =>
  match pyGet meta "description" (.str "") with
  | .error e => .error e
  | .ok description =>
    .ok (hero_headline, sections, first_body, slug, title, description)

/-- Message attached to a failed field extraction (the source interpolates the
exception text; the model keeps the fixed prefix). -/
def structureErrorIssues : JVal :=
  .obj [("error", .str "structure_error: AttributeError")]

/-- `validate_writer_output` (pipeline_pages.py:61-90).  Returns
`(is_valid, issues)`.  Extraction failures are caught and reported as a
`structure_error`; the length checks outside the `try` can themselves raise
(e.g. a truthy non-string headline has no `.strip`). -/
def validate_writer_output (draft : JVal) : Except PyErr (Bool × JVal) :=
  match extractDraftFields draft with
  | .error _ => .ok (false, structureErrorIssues)
  | .ok (hero_headline, sections, first_body, slug, title, description) =>
    match (if !hero_headline.truthy then .ok true
           else strLenStripLt hero_headline 10) with
    | .error e => .error e
    | .ok headlineBad =>
    match strLenStripLt first_body 50 with
    | .error e => .error e
    | .ok bodyBad =>
      let issues : List (String × JVal) :=
        (if headlineBad then
           [("headline", .str "headline too short (<10) or missing")] else []) ++
        (if !sections.truthy then
           [("sections", .str "no sections")] else []) ++
        (if bodyBad then
           [("first_section_body",
             .str "first section body too short (<50) or missing")] else []) ++
        (if !slug.truthy then [("slug", .str "slug missing")] else []) ++
        (if !title.truthy then [("title", .str "title missing")] else []) ++
        (if !description.truthy then
           [("description", .str "description missing")] else [])
      .ok (issues.isEmpty, .obj issues)

/-- `build_fallback_draft` (pipeline_pages.py:93-108).  The source function
computes `topic`, `amount`, `situation`, `slug`, `title`, `description` and
`hero` and then ends: the statements that would build `sections`, `faq` and
the final `return` dict sit as dead code after the `return` inside
`validate_page_output` (lines 116-139), so the function falls off the end and
returns `None`.  The field reads still raise `AttributeError` when the case
input is not a dict. -/
def build_fallback_draft (case_input : JVal) : Except PyErr JVal :=
  match case_input with
  | .obj _ => .ok .null
  | _ => .error .attributeError

/-- `validate_page_output` (pipeline_pages.py:111-115): returns
`validate_writer_output(draft)` on its first line; everything after that
`return` is unreachable (it is the tail of `build_fallback_draft`). -/
def validate_page_output (draft : JVal) : Except PyErr (Bool × JVal) :=
  validate_writer_output draft

/-- Exception text, used where the source interpolates the exception into a
message. -/
def PyErr.text : PyErr → String
  | .attributeError => "AttributeError"
  | .valueError m => m

/-- Skeleton `content` filled in by `call_writer` when the key is missing. -/
def defaultContent : JVal :=
  .obj [("hero", .obj [("headline", .str ""), ("subheadline", .str ""),
                       ("cta", .str "")]),
        ("sections", .arr []), ("faq", .arr [])]

/-- Skeleton `meta` filled in by `call_writer` when the key is missing. -/
def defaultMeta : JVal :=
  .obj [("slug", .str ""), ("title", .str ""), ("description", .str "")]

/-- `call_writer` post-processing (pipeline_pages.py:142-193) applied to the
raw LLM response: non-dict responses raise; missing `content`/`meta` are
filled with empty skeletons and a warning is recorded. -/
def call_writer (resp : Except PyErr JVal) : Except PyErr JVal :=
  match resp with
  | .error e => .error e
  | .ok (.obj fs) =>
      let step1 :=
        if hasKey fs "content" then (fs, ([] : List JVal))
        else (fs ++ [("content", defaultContent)],
              [JVal.str "writer: content missing, filled with empty skeleton."])
      let step2 :=
        if hasKey step1.1 "meta" then (step1.1, ([] : List JVal))
        else (step1.1 ++ [("meta", defaultMeta)],
              [JVal.str "writer: meta missing, filled with empty skeleton."])
      let warnings := step1.2 ++ step2.2
      if warnings.isEmpty then .ok (.obj step2.1)
      else
        match setdefaultExtend step2.1 "_warnings" warnings with
        | .ok fs3 => .ok (.obj fs3)
        | .error e => .error e
  | .ok _ => .error (.valueError "Writer 응답이 dict 형식이 아닙니다.")

/-- Reason synthesized by `call_reviewer` when `approved` is absent. -/
def reviewerOmissionReason : String :=
  "missing approved flag from reviewer response; treated as not approved."

/-- `call_reviewer` post-processing (pipeline_pages.py:235-244): non-dict
responses raise; a missing `approved` is set to `False`, and
`setdefault` adds the synthesized reason only when `reasons` is also
absent. -/
def call_reviewer (resp : Except PyErr JVal) :
    Except PyErr (List (String × JVal)) :=
  match resp with
  | .error e => .error e
  | .ok (.obj fs) =>
      if hasKey fs "approved" then .ok fs
      else
        let fs1 := objSet fs "approved" (.bool false)
        .ok (setdefaultKeep fs1 "reasons" (.arr [.str reviewerOmissionReason]))
  | .ok _ => .error (.valueError "Reviewer 응답이 dict 형식이 아닙니다.")

/-- `call_fixer` (pipeline_pages.py:247-281): the LLM call is wrapped in
`try/except`, so this never raises — failures become an `_error` marker
dict, non-dict responses become `fixer_return_not_dict`. -/
def call_fixer (resp : Except PyErr JVal) : List (String × JVal) :=
  match resp with
  | .error e => [("_error", .str ("fixer_call_failed: " ++ e.text))]
  | .ok (.obj fs) => fs
  | .ok _ => [("_error", .str "fixer_return_not_dict")]

/-- `call_final_gate` (pipeline_pages.py:284-324): raises `ValueError` when
the response is not a dict or lacks `approved` — unlike the loop reviewer
there is no conservative default. -/
def call_final_gate (resp : Except PyErr JVal) :
    Except PyErr (List (String × JVal)) :=
  match resp with
  | .error e => .error e
  | .ok (.obj fs) =>
      if hasKey fs "approved" then .ok fs
      else .error (.valueError "Final gate 응답에 approved 필드가 없습니다.")
  | .ok _ => .error (.valueError "Final gate 응답에 approved 필드가 없습니다.")

/-- Oracle for all external LLM calls made by one `run_page_pipeline`
execution.  `fixer i` / `reviewerFinal i` are the raw responses for the loop
iteration entered with round counter `i`; `.error` models the call raising. -/
structure Env where
  writer1 : Except PyErr JVal
  writer2 : Except PyErr JVal
  reviewerInit : Except PyErr JVal
  fixer : Nat → Except PyErr JVal
  reviewerFinal : Nat → Except PyErr JVal
  finalGate : Except PyErr JVal
  finalFixer : Except PyErr JVal

/-- The result dict built by `run_page_pipeline` (`case`, `draft`, `review`,
`final_gate`, `rounds`, `approved`, `status`, and `issues` on the two error
returns). -/
structure PipeResult where
  caseInput : JVal
  draft : JVal
  review : Option (List (String × JVal))
  final_gate : Option (List (String × JVal))
  rounds : Nat
  approved : Bool
  status : String
  issues : Option JVal := none
  /-- `deploy` key added to the result dict by the Run-All driver only. -/
  deploy : Option JVal := none
  deriving Repr

/-- Digits of a decimal string, as a rational. -/
def natOfDigits (cs : List Char) : ℚ :=
  cs.foldl (fun acc c => acc * 10 + ((c.toNat - 48 : Nat) : ℚ)) 0

/-- Python `float(s)` on the strings the model covers: optional sign, integer
digits, optional fraction (scientific notation, `inf`/`nan` and other exotic
accepted spellings are outside the model; no analysed behaviour depends on
them). -/
def parseDecimal? (s : String) : Option ℚ :=
  let cs0 := (pyStrip s).toList
  let signed : ℚ × List Char :=
    match cs0 with
    | '-' :: rest => (-1, rest)
    | '+' :: rest => (1, rest)
    | _ => (1, cs0)
  let sign := signed.1
  let cs := signed.2
  let intDigits := cs.takeWhile Char.isDigit
  let rest := cs.dropWhile Char.isDigit
  match rest with
  | [] => if intDigits.isEmpty then none else some (sign * natOfDigits intDigits)
  | '.' :: fracPart =>
      let fracDigits := fracPart.takeWhile Char.isDigit
      let rest2 := fracPart.dropWhile Char.isDigit
      if rest2.isEmpty && !(intDigits.isEmpty && fracDigits.isEmpty) then
        some (sign * (natOfDigits intDigits +
               natOfDigits fracDigits / (10 : ℚ) ^ fracDigits.length))
      else none
  | _ => none

/-- `float(v)` with every exception mapped to `0.0` by the surrounding
`try/except` (pipeline_pages.py:473-476). -/
def pyFloatD (v : JVal) : ℚ :=
  match v with
  | .num q => q
  | .bool b => if b then 1 else 0
  | .str s => (parseDecimal? s).getD 0
  | _ => 0

/-- `float(review.get("scores", {}).get("legal", 0.0))` with the `except`
mapping any failure (including a non-dict `scores`) to `0.0`. -/
def legalScore (review : List (String × JVal)) : ℚ :=
  match objGetD review "scores" (.obj []) with
  | .obj sf => pyFloatD (objGetD sf "legal" (.num 0))
  | _ => 0

/-- `MAX_ROUNDS` (config.py:26). -/
def MAX_ROUNDS : Nat := 3

/-- Outcome of the fix/review `while` loop: either the early `fixer_failed`
return from inside the loop body, or the state at normal loop exit. -/
inductive LoopOut where
  | early (r : PipeResult)
  | done (draft : JVal) (review : List (String × JVal)) (approved : Bool)
      (rounds : Nat)

/-- Reason appended by the lenient test-mode bypass. -/
def lenientReason : String :=
  "lenient test pass: legal score >= 0.8 after first round."

/-- Line 437: `validate_page_output(fixer_result) if "_error" not in
fixer_result else (False, fixer_result)`. -/
def fixCheck (fixer_result : List (String × JVal)) : Except PyErr (Bool × JVal) :=
  if hasKey fixer_result "_error" then .ok (false, .obj fixer_result)
  else validate_page_output (.obj fixer_result)

/-- `d.setdefault(key, []).append(x)` (lenient-mode reason append): raises
`AttributeError` when an existing value is not a list. -/
def setdefaultAppend (fs : List (String × JVal)) (key : String) (x : JVal) :
    Except PyErr (List (String × JVal)) :=
  setdefaultExtend fs key [x]

/-- Body of the fix/review loop, structurally recursive on
`remaining = MAX_ROUNDS - rounds` (so that it evaluates definitionally).
The `while not approved and rounds < MAX_ROUNDS` guard of the source is
equivalent to `remaining = 0 ∨ approved`, and `remaining` tracks
`MAX_ROUNDS - rounds` exactly across the `rounds += 1` recursion. -/
def fixLoopAux (env : Env) (test_lenient : Bool) (case_input : JVal) :
    Nat → JVal → List (String × JVal) → Bool → Nat → Except PyErr LoopOut
  | 0, draft, review, approved, rounds => .ok (.done draft review approved rounds)
  | remaining + 1, draft, review, approved, rounds =>
    if approved then .ok (.done draft review approved rounds)
    else
      let round_idx := rounds + 1
      let fixer_result := call_fixer (env.fixer rounds)
      match fixCheck fixer_result with
      | .error e => .error e
      | .ok (fix_valid, fix_issues) =>
        if fix_valid = false then
          .ok (.early { caseInput := case_input, draft := draft,
                        review := some review, final_gate := none,
                        rounds := round_idx, approved := false,
                        status := "fixer_failed", issues := some fix_issues })
        else
          let draft := JVal.obj fixer_result
          match call_reviewer (env.reviewerFinal rounds) with
          | .error e => .error e
          | .ok review =>
            let approved := (objGetD review "approved" (.bool false)).truthy
            let legal_score := legalScore review
            if test_lenient && !approved && decide ((0.8 : ℚ) ≤ legal_score) &&
                decide (1 ≤ round_idx) then
              match setdefaultAppend review "reasons" (.str lenientReason) with
              | .error e => .error e
              | .ok review2 =>
                  fixLoopAux env test_lenient case_input remaining draft review2
                    true (rounds + 1)
            else
              fixLoopAux env test_lenient case_input remaining draft review
                approved (rounds + 1)

/-- The fix/review loop of `run_page_pipeline` (pipeline_pages.py:431-488):
while not approved and below `MAX_ROUNDS`, call the Fixer; abort with a
`fixer_failed` result when the Fixer errored or its draft fails validation;
otherwise adopt the revision, re-review, optionally apply the lenient
bypass, and continue. -/
def fixLoop (env : Env) (test_lenient : Bool) (case_input : JVal)
    (draft : JVal) (review : List (String × JVal)) (approved : Bool)
    (rounds : Nat) : Except PyErr LoopOut :=
  fixLoopAux env test_lenient case_input (MAX_ROUNDS - rounds) draft review
    approved rounds

/-- The post-gate fixer pass (pipeline_pages.py:505-532): one more Fixer call
inside `try/except`; the revision is adopted only when it has no `_error`
marker and passes `validate_page_output`; on any failure — marker, invalid
draft, or an exception thrown inside the `try` (e.g. by the validator) —
the pre-gate `safe_draft` is kept. -/
def postGateFix (fixResp : Except PyErr JVal) (safe_draft : JVal) : JVal :=
  let final_fix := call_fixer fixResp
  let attempt : Except PyErr JVal :=
    if hasKey final_fix "_error" then .ok safe_draft
    else
      match validate_page_output (.obj final_fix) with
      | .error e => .error e
      | .ok (is_valid, _issues) =>
          if is_valid then .ok (.obj final_fix) else .ok safe_draft
  match attempt with
  | .ok d => d
  | .error _ => safe_draft

/-- Lines 490-545 of `run_page_pipeline`: the post-loop final-gate stage.
The source assigns `status = "blocked_by_loop"` first (line 490), but that
assignment is dead — the `if approved:` branch sets
`blocked_by_final_gate`/`approved_for_publish` and the `else` branch (loop
exhausted without approval) overwrites it with `"blocked_by_final_gate"`
(line 535). -/
def finalStage (env : Env) (case_input draft : JVal)
    (review : List (String × JVal)) (approved : Bool) (rounds : Nat) :
    Except PyErr PipeResult :=
  if approved then
    match call_final_gate env.finalGate with
    | .error e => .error e
    | .ok final_gate_review =>
      let final_gate_approved :=
        (objGetD final_gate_review "approved" (.bool false)).truthy
      let fgSugg := objGetD final_gate_review "fix_suggestions" .null
      let fix_suggestions := if fgSugg.truthy then fgSugg else .arr []
      let safe_draft := draft
      if !final_gate_approved then
        .ok { caseInput := case_input, draft := draft, review := some review,
              final_gate := some final_gate_review, rounds := rounds,
              approved := approved, status := "blocked_by_final_gate" }
      else
        let draft2 := if fix_suggestions.truthy then
            postGateFix env.finalFixer safe_draft
          else draft
        .ok { caseInput := case_input, draft := draft2, review := some review,
              final_gate := some final_gate_review, rounds := rounds,
              approved := approved, status := "approved_for_publish" }
  else
    .ok { caseInput := case_input, draft := draft, review := some review,
          final_gate := none, rounds := rounds, approved := approved,
          status := "blocked_by_final_gate" }

/-- `draft.setdefault("_warnings", []).append(msg)` on an arbitrary value:
raises `AttributeError` when the draft is not a dict (in particular on the
`None` returned by `build_fallback_draft`). -/
def appendWarning (draft : JVal) (msg : String) : Except PyErr JVal :=
  match draft with
  | .obj fs =>
      match setdefaultAppend fs "_warnings" (.str msg) with
      | .ok fs2 => .ok (.obj fs2)
      | .error e => .error e
  | _ => .error .attributeError

/-- `run_page_pipeline` (pipeline_pages.py:327-561).  Writer (with one retry
and the fallback path) → initial review → fix/review loop → final gate.
Logging and debug-file writes are side effects with no control-flow impact
and are omitted; prompt files are assumed readable. -/
def run_page_pipeline (env : Env) (case_input : JVal) (test_lenient : Bool) :
    Except PyErr PipeResult :=
  match case_input with
  | .obj _ =>
    (match call_writer env.writer1 with
     | .error e => .error e
     | .ok draft1 =>
     match validate_writer_output draft1 with
     | .error e => .error e
     | .ok (valid1, issues1) =>
     -- Writer retry (lines 360-381): the retry uses `call_llm_json` directly,
     -- without `call_writer`'s dict check or skeleton fill.
     let retryStep : Except PyErr (JVal × Bool × JVal) :=
       if valid1 = false then
         match env.writer2 with
         | .error e => .error e
         | .ok draft2 =>
           match validate_writer_output draft2 with
           | .error e => .error e
           | .ok (valid2, issues2) => .ok (draft2, valid2, issues2)
       else .ok (draft1, valid1, issues1)
     match retryStep with
     | .error e => .error e
     | .ok (draftA, validA, issuesA) =>
     -- Fallback (lines 383-390): validate the fallback, then append the
     -- "writer fallback used" warning to it.
     let fbStep : Except PyErr (JVal × Bool × JVal) :=
       if validA = false then
         match build_fallback_draft case_input with
         | .error e => .error e
         | .ok fb =>
           match validate_writer_output fb with
           | .error e => .error e
           | .ok (validB, issuesB) =>
             match appendWarning fb "writer fallback used" with
             | .error e => .error e
             | .ok fb2 => .ok (fb2, validB, issuesB)
       else .ok (draftA, validA, issuesA)
     match fbStep with
     | .error e => .error e
     | .ok (draftC, validC, issuesC) =>
     if validC = false then
       .ok { caseInput := case_input, draft := draftC, review := none,
             final_gate := none, rounds := 0, approved := false,
             status := "writer_hard_fail", issues := some issuesC }
     else
       match call_reviewer env.reviewerInit with
       | .error e => .error e
       | .ok review0 =>
         let approved0 := (objGetD review0 "approved" (.bool false)).truthy
         match fixLoop env test_lenient case_input draftC review0 approved0 0 with
         | .error e => .error e
         | .ok (.early r) => .ok r
         | .ok (.done draftL reviewL approvedL roundsL) =>
             finalStage env case_input draftL reviewL approvedL roundsL)
  | _ => .error .attributeError

/-- `case.get("status") not in (None, "todo")` decides skipping; `in` uses
Python `==`, which for these operands is value equality with `None` and with
the string `"todo"`. -/
def isTodoStatus (v : JVal) : Bool :=
  match v with
  | .null => true
  | .str s => s = "todo"
  | _ => false

/-- Oracles for one `run_all_cases` batch: the LLM environment and the
`run_html_and_deploy` result for the i-th processed case.
`run_html_and_deploy` (html_and_deploy.py:188-225) wraps its whole body in
`try/except` and returns a status dict in both branches, so it is modelled
as a total function. -/
structure DriverEnv where
  pipeEnv : Nat → Env
  deploy : Nat → JVal

/-- The `for case in cases` loop of `run_all_cases` (run_all.py:38-57),
returning (results, updated case list).  `break` leaves the remaining cases
untouched (they are still rewritten by `save_cases`); `continue` keeps a
skipped case unchanged; a non-dict case raises `AttributeError` at
`case.get("status")`.  The result dict gains a `deploy` key only for
published cases, mirrored by `PipeResult.deploy`. -/
def run_all_go (denv : DriverEnv) (test_lenient : Bool)
    (max_cases_per_run : Nat) :
    List JVal → Nat → Except PyErr (List PipeResult × List JVal)
  | [], _ => .ok ([], [])
  | case :: rest, processed =>
    if max_cases_per_run ≤ processed then .ok ([], case :: rest)
    else
      match case with
      | .obj cf =>
        if isTodoStatus (objGetD cf "status" .null) = false then
          match run_all_go denv test_lenient max_cases_per_run rest processed with
          | .error e => .error e
          | .ok (rs, cs) => .ok (rs, case :: cs)
        else
          match run_page_pipeline (denv.pipeEnv processed) case test_lenient with
          | .error e => .error e
          | .ok pr =>
            let cf1 := objSet cf "status" (.str pr.status)
            -- `pipeline_result.get("last_run_at") or .get("timestamp") or
            -- None`: the result dict has neither key, so this is None.
            let cf2 := objSet cf1 "last_run_at" .null
            let deployRes : Option JVal :=
              if pr.status = "approved_for_publish" then
                some (denv.deploy processed)
              else none
            let pr2 := { pr with deploy := deployRes }
            let cf3 := objSet cf2 "deploy" (deployRes.getD .null)
            match run_all_go denv test_lenient max_cases_per_run rest
                (processed + 1) with
            | .error e => .error e
            | .ok (rs, cs) => .ok (pr2 :: rs, .obj cf3 :: cs)
      | _ => .error .attributeError

/-- `run_all_cases` (run_all.py:29-68).  The failure-count bookkeeping around
the loop only feeds an `if` whose body is entirely commented out in the
source (so as written that `if` is a Python `IndentationError`; the
evidently intended no-op is modelled), and `save_cases` rewrites the full
updated collection, returned here as the second component. -/
def run_all_cases (denv : DriverEnv) (cases : List JVal) (test_lenient : Bool)
    (max_cases_per_run : Nat) : Except PyErr (List PipeResult × List JVal) :=
  run_all_go denv test_lenient max_cases_per_run cases 0

/-- First candidate wrapper key present in the dict, in candidate order
(`for key in candidate_keys: if key in obj`). -/
def firstCandidate (fs : List (String × JVal)) :
    List String → Option (String × JVal)
  | [] => none
  | k :: ks =>
      match alookup fs k with
      | some v => some (k, v)
      | none => firstCandidate fs ks

/-- `_extract_list` (pipeline_cases.py:40-52): lists pass through; a dict
with a known wrapper key must map it to a list (else `ValueError`); a dict
with none of the wrapper keys is returned as the single-element list
`[obj]`; anything else raises `ValueError`. -/
def extract_list (obj : JVal) (candidate_keys : List String) :
    Except PyErr (List JVal) :=
  match obj with
  | .arr xs => .ok xs
  | .obj fs =>
      match firstCandidate fs candidate_keys with
      | some (k, .arr xs) =>
          let _ := k
          .ok xs
      | some (k, _) => .error (.valueError (k ++ " 값이 배열이 아닙니다."))
      | none => .ok [.obj fs]
  | _ => .error (.valueError "LLM 응답이 배열이나 객체가 아닙니다.")

/-- A writer response whose draft fails validation (valid dict, but empty
hero/sections/meta once the skeleton defaults kick in). -/
def invalidWriterResp : JVal := .obj [("content", .obj [])]

/-- The example case of spec §8: both Writer attempts return schema-invalid
drafts, forcing the fallback path. -/
def fallbackCase : JVal :=
  .obj [("topic", .str "프리랜서 미수금"), ("amount", .str "150만원"),
        ("situation", .str "unpaid freelance invoice")]

/-- Unused oracle slot. -/
def unusedResp : Except PyErr JVal := .error (.valueError "unused oracle")

/-- Environment driving `run_page_pipeline` into the fallback path: both
Writer attempts produce schema-invalid drafts. -/
def envC1 : Env :=
  { writer1 := .ok invalidWriterResp, writer2 := .ok invalidWriterResp,
    reviewerInit := unusedResp, fixer := fun _ => unusedResp,
    reviewerFinal := fun _ => unusedResp, finalGate := unusedResp,
    finalFixer := unusedResp }

/-- A draft that passes `validate_writer_output`. -/
def goodDraft : JVal :=
  .obj [("content", .obj [
           ("hero", .obj [("headline", .str "A perfectly valid headline")]),
           ("sections", .arr [.obj [("id", .str "overview"),
              ("body", .str "This first section body is long enough to pass the fifty character minimum check.")]])]),
        ("meta", .obj [("slug", .str "valid-page"), ("title", .str "Valid title"),
                       ("description", .str "Valid description")])]

/-- A reviewer verdict that rejects the draft. -/
def rejectReview : JVal := .obj [("approved", .bool false)]

/-- Environment in which the Writer succeeds but the reviewer never approves
while the Fixer keeps returning valid drafts: the loop exhausts its round
budget. -/
def envC2 : Env :=
  { writer1 := .ok goodDraft, writer2 := unusedResp,
    reviewerInit := .ok rejectReview, fixer := fun _ => .ok goodDraft,
    reviewerFinal := fun _ => .ok rejectReview, finalGate := unusedResp,
    finalFixer := unusedResp }

/-- A minimal case record with `status` unset (so the driver processes it). -/
def todoCase : JVal := .obj [("case_id", .str "case-1")]

/-- Environment in which the Writer draft is valid, the loop reviewer
approves immediately, and the Final Gate responds with a dict lacking the
`approved` field — `call_final_gate` raises. -/
def envC8 : Env :=
  { writer1 := .ok goodDraft, writer2 := unusedResp,
    reviewerInit := .ok (.obj [("approved", .bool true)]),
    fixer := fun _ => unusedResp, reviewerFinal := fun _ => unusedResp,
    finalGate := .ok (.obj [("reasons", .arr [])]),
    finalFixer := unusedResp }

/-- Driver environment built on `envC8`. -/
def denvC8 : DriverEnv :=
  { pipeEnv := fun _ => envC8, deploy := fun _ => .obj [("status", .str "success")] }

/-- The Draft Validator's verdict on a draft, as a boolean: `true` iff
`validate_page_output` returns without raising and reports zero issues. -/
def isValidDraft (d : JVal) : Bool :=
  match validate_page_output d with
  | .ok (b, _) => b
  | .error _ => false

/-- The post-gate fixer pass succeeded: the Fixer returned a dict without an
`_error` marker and `validate_page_output` accepted it without raising.
Its negation covers exactly the claim's three failure modes: the call threw
(`call_fixer` turns that into an `_error` marker), the Fixer returned an
error marker, or the revised content fails (or crashes) the validator. -/
def finalFixOk (resp : Except PyErr JVal) : Bool :=
  let f := call_fixer resp
  !hasKey f "_error" &&
    (match validate_page_output (.obj f) with
     | .ok (b, _) => b
     | .error _ => false)

/-- Does the reviewer output's `reasons` list contain the synthesized
omission notice? -/
def mentionsOmission (fs : List (String × JVal)) : Bool :=
  match alookup fs "reasons" with
  | some (.arr rs) =>
      rs.any (fun r => match r with
        | .str s => s = reviewerOmissionReason
        | _ => false)
  | _ => false

/-- Is the value a JSON array or object (Python list or dict)? -/
def isContainer : JVal → Bool
  | .arr _ => true
  | .obj _ => true
  | _ => false

/-- Is the value a JSON array (Python list)? -/
def isArr : JVal → Bool
  | .arr _ => true
  | _ => false

/-- The working draft carried by a loop outcome: the kept previous draft of
an early `fixer_failed` return, or the draft at normal loop exit. -/
def loopOutDraft : LoopOut → JVal
  | .early r => r.draft
  | .done d _ _ _ => d

/-- The result of `run_page_pipeline envC2 todoCase false`: the loop exhausts
its three rounds without approval. -/
def resC2 : PipeResult :=
  { caseInput := todoCase, draft := goodDraft,
    review := some [("approved", JVal.bool false)], final_gate := none,
    rounds := 3, approved := false, status := "blocked_by_final_gate" }

/-- A reviewer/gate verdict approving the draft. -/
def reviewApproved : JVal := .obj [("approved", .bool true)]

/-- Environment in which the first review approves and the Final Gate
approves without suggestions. -/
def envHappy : Env :=
  { writer1 := .ok goodDraft, writer2 := unusedResp,
    reviewerInit := .ok reviewApproved, fixer := fun _ => unusedResp,
    reviewerFinal := fun _ => unusedResp, finalGate := .ok reviewApproved,
    finalFixer := unusedResp }

/-- A `run_html_and_deploy` success result. -/
def deployOk : JVal := .obj [("status", .str "success")]

/-- Driver environment built on `envHappy`. -/
def denvHappy : DriverEnv :=
  { pipeEnv := fun _ => envHappy, deploy := fun _ => deployOk }

/-- The pipeline result produced under `envHappy`, with the `deploy` key the
driver adds. -/
def resHappy : PipeResult :=
  { caseInput := todoCase, draft := goodDraft,
    review := some [("approved", JVal.bool true)],
    final_gate := some [("approved", JVal.bool true)], rounds := 0,
    approved := true, status := "approved_for_publish",
    deploy := some deployOk }

/-- The updated case record written back by the driver under `envHappy`. -/
def caseHappyOut : JVal :=
  .obj [("case_id", .str "case-1"), ("status", .str "approved_for_publish"),
        ("last_run_at", .null), ("deploy", deployOk)]

/-- Environment whose in-loop Fixer call raises. -/
def envC4 : Env :=
  { writer1 := unusedResp, writer2 := unusedResp, reviewerInit := unusedResp,
    fixer := fun _ => .error (.valueError "boom"),
    reviewerFinal := fun _ => unusedResp, finalGate := unusedResp,
    finalFixer := unusedResp }

/-- A Final-Gate verdict approving with a non-empty `fix_suggestions`. -/
def gateSugg : JVal :=
  .obj [("approved", .bool true),
        ("fix_suggestions", .arr [.str "shorten headline"])]

/-- Environment in which the Final Gate approves with suggestions and the
follow-up fixer call raises. -/
def envC5 : Env :=
  { writer1 := unusedResp, writer2 := unusedResp, reviewerInit := unusedResp,
    fixer := fun _ => unusedResp, reviewerFinal := fun _ => unusedResp,
    finalGate := .ok gateSugg,
    finalFixer := .error (.valueError "late boom") }

/-! ## JSON codec: `json.dumps` / `json.loads` as used by the Case Store
(`save_cases` / `load_cases`, pipeline_cases.py:55-76).  `dumps` models
CPython's `json.dumps(v, ensure_ascii=False)` with default separators;
`loads` is a strict recursive-descent parser of the same grammar
(`json.loads` raising becomes `none`).  Numbers: integers are modelled
exactly; float repr/parsing is IEEE-754-specific and outside the model
(`storable` below restricts the round-trip theorem to integral numbers).
Surrogate `\u` escapes (which CPython pairs up) are rejected rather than
combined — no printed output contains them. -/

/-- The left curly-bracket character. -/
def lbraceC : Char := Char.ofNat 123

/-- The right curly-bracket character. -/
def rbraceC : Char := Char.ofNat 125

/-- Lowercase hex digit for a value below 16. -/
def hexDigitChar (n : Nat) : Char :=
  if n < 10 then Char.ofNat (48 + n) else Char.ofNat (87 + n)

/-- `json.dumps` escaping of one character (`ensure_ascii=False`): quote,
backslash and the named control shorthands, `\u00xx` for the remaining
control characters, everything else verbatim. -/
def escChar (c : Char) : List Char :=
  if c = '"' then ['\\', '"']
  else if c = '\\' then ['\\', '\\']
  else if c = '\n' then ['\\', 'n']
  else if c = '\r' then ['\\', 'r']
  else if c = '\t' then ['\\', 't']
  else if c = '\x08' then ['\\', 'b']
  else if c = '\x0c' then ['\\', 'f']
  else if c.toNat < 32 then
    ['\\', 'u', '0', '0', hexDigitChar (c.toNat / 16),
     hexDigitChar (c.toNat % 16)]
  else [c]

/-- Escaped character content of a JSON string literal. -/
def escString (s : String) : List Char := s.toList.flatMap escChar

/-- Decimal digit character. -/
def digitChar (n : Nat) : Char := Char.ofNat (48 + n)

/-- Fuelled decimal printer for naturals (most significant digit first). -/
def natCharsAux : Nat → Nat → List Char
  | 0, _ => []
  | fuel + 1, n =>
    if n < 10 then [digitChar n]
    else natCharsAux fuel (n / 10) ++ [digitChar (n % 10)]

/-- Decimal digits of a natural. -/
def natChars (n : Nat) : List Char := natCharsAux (n + 1) n

/-- Python `repr` of an int. -/
def intChars (i : Int) : List Char :=
  if i < 0 then '-' :: natChars i.natAbs else natChars i.toNat

/-- `json.dumps` of a number: integers print exactly as Python ints; floats
print via IEEE-754 `repr`, which is outside the model, so a non-integral
rational prints as a placeholder the parser rejects (the round-trip theorem
excludes it via `storable`). -/
def numChars (q : ℚ) : List Char :=
  if q.den = 1 then intChars q.num else ['?']

mutual

/-- `json.dumps(v, ensure_ascii=False)` with the default `", "`/`": "`
separators, as a character list. -/
def dumpVal : JVal → List Char
  | .null => "null".toList
  | .bool true => "true".toList
  | .bool false => "false".toList
  | .num q => numChars q
  | .str s => '"' :: (escString s ++ ['"'])
  | .arr xs => '[' :: (dumpArr xs ++ [']'])
  | .obj fs => lbraceC :: (dumpObj fs ++ [rbraceC])

/-- Array elements joined by `", "`. -/
def dumpArr : List JVal → List Char
  | [] => []
  | [x] => dumpVal x
  | x :: y :: rest => dumpVal x ++ ',' :: ' ' :: dumpArr (y :: rest)

/-- Object members `"key": value` joined by `", "`. -/
def dumpObj : List (String × JVal) → List Char
  | [] => []
  | [(k, v)] => '"' :: (escString k ++ '"' :: ':' :: ' ' :: dumpVal v)
  | (k, v) :: q :: rest =>
      ('"' :: (escString k ++ '"' :: ':' :: ' ' :: dumpVal v)) ++
        ',' :: ' ' :: dumpObj (q :: rest)

end

/-- JSON whitespace (the four characters `json.loads` skips). -/
def isWsChar (c : Char) : Bool := c = ' ' || c = '\t' || c = '\n' || c = '\r'

/-- Value of a hex digit character. -/
def hexVal? (c : Char) : Option Nat :=
  if '0' ≤ c ∧ c ≤ '9' then some (c.toNat - 48)
  else if 'a' ≤ c ∧ c ≤ 'f' then some (c.toNat - 87)
  else if 'A' ≤ c ∧ c ≤ 'F' then some (c.toNat - 55)
  else none

/-- The single-character JSON escapes. -/
def escCode? (e : Char) : Option Char :=
  if e = '"' then some '"'
  else if e = '\\' then some '\\'
  else if e = '/' then some '/'
  else if e = 'n' then some '\n'
  else if e = 'r' then some '\r'
  else if e = 't' then some '\t'
  else if e = 'b' then some '\x08'
  else if e = 'f' then some '\x0c'
  else none

/-- Continuation of a `\u` escape: combine the four hex digit values and
prepend the decoded character (surrogate code points are rejected; CPython
would pair them, but no printed output contains them). -/
def parseUHexCont (a b c2 d : Option Nat)
    (k : Option (List Char × List Char)) : Option (List Char × List Char) :=
  match a, b, c2, d with
  | some ha, some hb, some hc, some hd =>
    let n := ((ha * 16 + hb) * 16 + hc) * 16 + hd
    if _h : n.isValidChar then k.map (fun p => (Char.ofNat n :: p.1, p.2))
    else none
  | _, _, _, _ => none

/-- Parse the body of a JSON string literal after the opening quote,
returning the unescaped characters and the input after the closing quote.
Strict mode: raw control characters are rejected, as `json.loads` does.
The fuel argument (structural recursion) only needs to exceed the number of
decoded characters; call sites pass the input length plus one, which always
suffices, so the function agrees with the unbounded parser. -/
def parseStringBody : Nat → List Char → Option (List Char × List Char)
  | 0, _ => none
  | fuel + 1, cs =>
    match cs with
    | [] => none
    | c :: rest =>
      if c = '"' then some ([], rest)
      else if c = '\\' then
        match rest with
        | [] => none
        | e :: rest2 =>
          if e = 'u' then
            match rest2 with
            | a :: b :: c2 :: d :: rest3 =>
                parseUHexCont (hexVal? a) (hexVal? b) (hexVal? c2) (hexVal? d)
                  (parseStringBody fuel rest3)
            | _ => none
          else
            match escCode? e with
            | some ch =>
                (parseStringBody fuel rest2).map (fun p => (ch :: p.1, p.2))
            | none => none
      else if c.toNat < 32 then none
      else (parseStringBody fuel rest).map (fun p => (c :: p.1, p.2))

/-- Maximal-munch decimal digit reader. -/
def parseDigitsAux : List Char → Nat → Nat × List Char
  | [], acc => (acc, [])
  | c :: rest, acc =>
    if c.isDigit then parseDigitsAux rest (acc * 10 + (c.toNat - 48))
    else (acc, c :: rest)

/-- The JSON `int` rule: `0`, or a nonzero leading digit followed by
digits. -/
def parseIntPart : List Char → Option (Nat × List Char)
  | [] => none
  | c :: rest =>
    if c = '0' then some (0, rest)
    else if c.isDigit then some (parseDigitsAux rest (c.toNat - 48))
    else none

/-- The optional JSON fraction part, as a rational. -/
def parseFrac : List Char → Option (ℚ × List Char)
  | [] => some (0, [])
  | c :: rest =>
    if c = '.' then
      let ds := rest.takeWhile Char.isDigit
      if ds.isEmpty then none
      else some (natOfDigits ds / (10 : ℚ) ^ ds.length,
                 rest.dropWhile Char.isDigit)
    else some (0, c :: rest)

/-- Decimal digits, as a natural. -/
def natFromDigits (cs : List Char) : Nat :=
  cs.foldl (fun a c => a * 10 + (c.toNat - 48)) 0

/-- The optional JSON exponent part, as a rational multiplier. -/
def parseExpPart : List Char → Option (ℚ × List Char)
  | [] => some (1, [])
  | c :: rest =>
    if c = 'e' || c = 'E' then
      let signed : Bool × List Char :=
        match rest with
        | s :: r2 =>
            if s = '+' then (false, r2)
            else if s = '-' then (true, r2)
            else (false, rest)
        | [] => (false, [])
      let ds := signed.2.takeWhile Char.isDigit
      if ds.isEmpty then none
      else
        some (if signed.1 then 1 / (10 : ℚ) ^ natFromDigits ds
              else (10 : ℚ) ^ natFromDigits ds,
              signed.2.dropWhile Char.isDigit)
    else some (1, c :: rest)

/-- A JSON number (sign, int part, optional fraction and exponent), as an
exact rational. -/
def parseNumber (cs : List Char) : Option (ℚ × List Char) :=
  let signed : Bool × List Char :=
    match cs with
    | c :: rest => if c = '-' then (true, rest) else (false, cs)
    | [] => (false, [])
  match parseIntPart signed.2 with
  | none => none
  | some (ip, cs1) =>
    match parseFrac cs1 with
    | none => none
    | some (fq, cs2) =>
      match parseExpPart cs2 with
      | none => none
      | some (m, cs3) =>
        some ((if signed.1 then -1 else 1) * ((ip : ℚ) + fq) * m, cs3)

mutual

/-- Fuelled recursive-descent parser for one JSON value. -/
def parseVal : Nat → List Char → Option (JVal × List Char)
  | 0, _ => none
  | fuel + 1, cs =>
    match cs with
    | [] => none
    | c :: rest =>
      if c = 'n' then
        match rest with
        | 'u' :: 'l' :: 'l' :: r => some (.null, r)
        | _ => none
      else if c = 't' then
        match rest with
        | 'r' :: 'u' :: 'e' :: r => some (.bool true, r)
        | _ => none
      else if c = 'f' then
        match rest with
        | 'a' :: 'l' :: 's' :: 'e' :: r => some (.bool false, r)
        | _ => none
      else if c = '"' then
        (parseStringBody (rest.length + 1) rest).map
          (fun p => (JVal.str ⟨p.1⟩, p.2))
      else if c = '-' || c.isDigit then
        (parseNumber (c :: rest)).map (fun p => (JVal.num p.1, p.2))
      else if c = '[' then
        match List.dropWhile isWsChar rest with
        | [] => none
        | c2 :: r2 =>
          if c2 = ']' then some (.arr [], r2)
          else (parseElems fuel (c2 :: r2)).map (fun p => (JVal.arr p.1, p.2))
      else if c = lbraceC then
        match List.dropWhile isWsChar rest with
        | [] => none
        | c2 :: r2 =>
          if c2 = rbraceC then some (.obj [], r2)
          else
            (parseMembers fuel (c2 :: r2)).map (fun p => (JVal.obj p.1, p.2))
      else none

/-- One or more comma-separated array elements, up to the closing
bracket. -/
def parseElems : Nat → List Char → Option (List JVal × List Char)
  | 0, _ => none
  | fuel + 1, cs =>
    match parseVal fuel cs with
    | none => none
    | some (v, cs1) =>
      match List.dropWhile isWsChar cs1 with
      | [] => none
      | c2 :: r2 =>
        if c2 = ']' then some ([v], r2)
        else if c2 = ',' then
          match parseElems fuel (List.dropWhile isWsChar r2) with
          | none => none
          | some (vs, cs3) => some (v :: vs, cs3)
        else none

/-- One or more comma-separated object members, up to the closing curly
bracket. -/
def parseMembers : Nat → List Char → Option (List (String × JVal) × List Char)
  | 0, _ => none
  | fuel + 1, cs =>
    match cs with
    | [] => none
    | c0 :: r0 =>
      if c0 = '"' then
        match parseStringBody (r0.length + 1) r0 with
        | none => none
        | some (kcs, cs1) =>
          match List.dropWhile isWsChar cs1 with
          | [] => none
          | c1 :: r1 =>
            if c1 = ':' then
              match parseVal fuel (List.dropWhile isWsChar r1) with
              | none => none
              | some (v, cs2) =>
                match List.dropWhile isWsChar cs2 with
                | [] => none
                | c3 :: r3 =>
                  if c3 = rbraceC then some ([(⟨kcs⟩, v)], r3)
                  else if c3 = ',' then
                    match parseMembers fuel (List.dropWhile isWsChar r3) with
                    | none => none
                    | some (ms, cs4) => some ((⟨kcs⟩, v) :: ms, cs4)
                  else none
            else none
      else none

end

/-- `json.dumps(v, ensure_ascii=False)`. -/
def dumps (v : JVal) : String := ⟨dumpVal v⟩

/-- `json.loads(s)`: parse one value surrounded by optional whitespace,
requiring the whole input to be consumed; `none` models the
`JSONDecodeError` raise. -/
def loads (s : String) : Option JVal :=
  match parseVal (s.length + 1) (List.dropWhile isWsChar s.toList) with
  | none => none
  | some (v, rest) =>
      if (List.dropWhile isWsChar rest).isEmpty then some v else none

/-- `save_cases` (pipeline_cases.py:70-76): one `json.dumps(case,
ensure_ascii=False) + "\n"` per record, concatenated into the file
content. -/
def save_cases (cases : List JVal) : String :=
  ⟨(cases.map (fun c => dumpVal c ++ ['\n'])).flatten⟩

/-- Text-mode line splitting on `'\n'` (Python `for line in f`; the final
fragment after a trailing newline is the empty line Python never yields,
which `load_cases` skips anyway). -/
def splitNl : List Char → List (List Char)
  | [] => [[]]
  | c :: rest =>
    if c = '\n' then [] :: splitNl rest
    else
      match splitNl rest with
      | l :: ls => (c :: l) :: ls
      | [] => [[c]]

/-- The per-line loop of `load_cases`: strip, skip empties, `json.loads`
each line (a decode failure raises). -/
def loadLines : List (List Char) → Except PyErr (List JVal)
  | [] => .ok []
  | l :: rest =>
    let stripped := pyStrip ⟨l⟩
    if stripped.isEmpty then loadLines rest
    else
      match loads stripped with
      | none => .error (.valueError "json decode failed")
      | some v =>
        match loadLines rest with
        | .error e => .error e
        | .ok vs => .ok (v :: vs)

/-- `load_cases` (pipeline_cases.py:55-67), as a function of the file
content written by `save_cases`. -/
def load_cases (content : String) : Except PyErr (List JVal) :=
  loadLines (splitNl content.toList)

mutual

/-- All numbers in the value are integers (Python case records contain
strings, nulls and ints; floats round-trip through IEEE-754 `repr`, which
is outside the model). -/
def storable : JVal → Bool
  | .null => true
  | .bool _ => true
  | .num q => decide (q.den = 1)
  | .str _ => true
  | .arr xs => storableList xs
  | .obj fs => storableFields fs

/-- `storable` on every element. -/
def storableList : List JVal → Bool
  | [] => true
  | x :: rest => storable x && storableList rest

/-- `storable` on every member value. -/
def storableFields : List (String × JVal) → Bool
  | [] => true
  | (_, v) :: rest => storable v && storableFields rest

end

mutual

/-- Node-count measure used to budget parser fuel. -/
def jsize : JVal → Nat
  | .arr xs => 1 + jsizeList xs
  | .obj fs => 1 + jsizeFields fs
  | _ => 1

/-- Summed measure of array elements (one extra unit per element). -/
def jsizeList : List JVal → Nat
  | [] => 0
  | x :: rest => 1 + jsize x + jsizeList rest

/-- Summed measure of object members (one extra unit per member). -/
def jsizeFields : List (String × JVal) → Nat
  | [] => 0
  | (_, v) :: rest => 1 + jsize v + jsizeFields rest

end

/-- The next input character cannot extend a decimal number token. -/
def numStop : List Char → Prop
  | [] => True
  | c :: _ => c.isDigit = false ∧ c ≠ '.' ∧ c ≠ 'e' ∧ c ≠ 'E'

/-- The next input character is not a decimal digit. -/
def headNotDigit : List Char → Prop
  | [] => True
  | c :: _ => c.isDigit = false

/-- First characters a printed JSON value can start with. -/
def valHead (c : Char) : Bool :=
  c = 'n' || c = 't' || c = 'f' || c = '"' || c = '-' || c.isDigit ||
    c = '[' || c = lbraceC

/-! ## Association-list lemmas -/

theorem alookup_append_left {fs gs : List (String × JVal)} {k : String}
    (h : hasKey fs k = true) : alookup (fs ++ gs) k = alookup fs k := by
  induction fs with
  | nil => simp [hasKey, alookup] at h
  | cons p rest ih =>
    by_cases hk : p.1 = k
    · simp [alookup, hk]
    · have h' : hasKey rest k = true := by
        simpa [hasKey, alookup, hk] using h
      simp [alookup, hk, ih h']

theorem alookup_append_right {fs gs : List (String × JVal)} {k : String}
    (h : hasKey fs k = false) : alookup (fs ++ gs) k = alookup gs k := by
  induction fs with
  | nil => simp
  | cons p rest ih =>
    by_cases hk : p.1 = k
    · simp [hasKey, alookup, hk] at h
    · have h' : hasKey rest k = false := by
        simpa [hasKey, alookup, hk] using h
      simp [alookup, hk, ih h']

theorem hasKey_append {fs gs : List (String × JVal)} {k : String} :
    hasKey (fs ++ gs) k = (hasKey fs k || hasKey gs k) := by
  induction fs with
  | nil => simp [hasKey, alookup]
  | cons p rest ih =>
    obtain ⟨k0, v0⟩ := p
    by_cases hk : k0 = k
    · simp [hasKey, alookup, hk]
    · simp [hasKey, alookup, hk] at ih ⊢
      exact ih

theorem objSet_of_not_hasKey {fs : List (String × JVal)} {k : String}
    {v : JVal} (h : hasKey fs k = false) : objSet fs k v = fs ++ [(k, v)] := by
  induction fs with
  | nil => simp [objSet]
  | cons p rest ih =>
    by_cases hk : p.1 = k
    · simp [hasKey, alookup, hk] at h
    · have h' : hasKey rest k = false := by
        simpa [hasKey, alookup, hk] using h
      cases p with
      | mk k0 v0 =>
        simp only at hk
        simp [objSet, hk, ih h']

/-! ## Fix-loop and final-stage lemmas -/

theorem fixCheck_ok_true {fr : List (String × JVal)} {iss : JVal}
    (h : fixCheck fr = .ok (true, iss)) : isValidDraft (.obj fr) = true := by
  unfold fixCheck at h
  by_cases hk : hasKey fr "_error"
  · simp [hk] at h
  · simp only [hk, Bool.false_eq_true, if_false] at h
    unfold isValidDraft
    rw [h]

theorem postGateFix_valid {resp : Except PyErr JVal} {safe : JVal}
    (hs : isValidDraft safe = true) :
    isValidDraft (postGateFix resp safe) = true := by
  unfold postGateFix
  by_cases hk : hasKey (call_fixer resp) "_error"
  · simpa [hk] using hs
  · simp only [hk, Bool.false_eq_true, if_false]
    cases hv : validate_page_output (.obj (call_fixer resp)) with
    | error e => simpa using hs
    | ok p =>
      obtain ⟨b, i⟩ := p
      cases b with
      | false => simpa using hs
      | true =>
        simp only [if_true]
        unfold isValidDraft
        rw [show validate_page_output (.obj (call_fixer resp)) = .ok (true, i)
              from hv]

theorem postGateFix_of_fail {resp : Except PyErr JVal} {safe : JVal}
    (h : finalFixOk resp = false) : postGateFix resp safe = safe := by
  unfold finalFixOk at h
  unfold postGateFix
  by_cases hk : hasKey (call_fixer resp) "_error"
  · simp [hk]
  · simp only [hk, Bool.false_eq_true, if_false, Bool.not_false,
      Bool.true_and] at h ⊢
    cases hv : validate_page_output (.obj (call_fixer resp)) with
    | error e => simp [hv]
    | ok p =>
      obtain ⟨b, i⟩ := p
      rw [hv] at h
      cases b with
      | false => simp
      | true => simp at h

theorem fixLoopAux_cases :
    ∀ (remaining : Nat) (env : Env) (lenient : Bool) (ci draft : JVal)
      (review : List (String × JVal)) (ap : Bool) (rounds : Nat)
      (out : LoopOut),
      isValidDraft draft = true →
      fixLoopAux env lenient ci remaining draft review ap rounds = .ok out →
      (match out with
       | .early r => r.status = "fixer_failed" ∧ r.approved = false ∧
           isValidDraft r.draft = true ∧ r.rounds ≤ rounds + remaining
       | .done d _ _ rounds2 => isValidDraft d = true ∧
           rounds2 ≤ rounds + remaining) := by
  intro remaining
  induction remaining with
  | zero =>
    intro env lenient ci draft review ap rounds out hv h
    simp only [fixLoopAux, Except.ok.injEq] at h
    subst h
    simp [hv]
  | succ n ih =>
    intro env lenient ci draft review ap rounds out hv h
    simp only [fixLoopAux] at h
    cases ap with
    | true =>
      rw [if_pos rfl] at h
      simp only [Except.ok.injEq] at h
      subst h
      simp [hv]
    | false =>
      rw [if_neg (by decide)] at h
      cases hfc : fixCheck (call_fixer (env.fixer rounds)) with
      | error e => rw [hfc] at h; simp at h
      | ok p =>
        obtain ⟨fix_valid, fix_issues⟩ := p
        rw [hfc] at h
        dsimp only at h
        cases fix_valid with
        | false =>
          rw [if_pos rfl] at h
          simp only [Except.ok.injEq] at h
          subst h
          exact ⟨rfl, rfl, hv, by dsimp only; omega⟩
        | true =>
          rw [if_neg (by decide)] at h
          have hvd : isValidDraft (.obj (call_fixer (env.fixer rounds))) = true :=
            fixCheck_ok_true hfc
          cases hrev : call_reviewer (env.reviewerFinal rounds) with
          | error e => rw [hrev] at h; simp at h
          | ok review2 =>
            rw [hrev] at h
            dsimp only at h
            by_cases hlen : (lenient &&
                !(objGetD review2 "approved" (JVal.bool false)).truthy &&
                decide ((0.8 : ℚ) ≤ legalScore review2) &&
                decide (1 ≤ rounds + 1)) = true
            · rw [if_pos hlen] at h
              cases hsd : setdefaultAppend review2 "reasons" (.str lenientReason) with
              | error e => rw [hsd] at h; simp at h
              | ok review3 =>
                rw [hsd] at h
                have := ih env lenient ci (.obj (call_fixer (env.fixer rounds)))
                  review3 true (rounds + 1) out hvd h
                cases out with
                | early r =>
                  simp only at this ⊢
                  exact ⟨this.1, this.2.1, this.2.2.1, by omega⟩
                | done d rv a r2 =>
                  simp only at this ⊢
                  exact ⟨this.1, by omega⟩
            · rw [if_neg hlen] at h
              have := ih env lenient ci (.obj (call_fixer (env.fixer rounds)))
                review2 ((objGetD review2 "approved" (JVal.bool false)).truthy)
                (rounds + 1) out hvd h
              cases out with
              | early r =>
                simp only at this ⊢
                exact ⟨this.1, this.2.1, this.2.2.1, by omega⟩
              | done d rv a r2 =>
                simp only at this ⊢
                exact ⟨this.1, by omega⟩

theorem finalStage_cases (env : Env) (ci draft : JVal)
    (review : List (String × JVal)) (ap : Bool) (rounds : Nat)
    (r : PipeResult) (hv : isValidDraft draft = true)
    (h : finalStage env ci draft review ap rounds = .ok r) :
    isValidDraft r.draft = true ∧ r.rounds = rounds ∧
      (r.status = "blocked_by_final_gate" ∨
        r.status = "approved_for_publish") := by
  unfold finalStage at h
  cases ap with
  | false =>
    rw [if_neg (by decide)] at h
    simp only [Except.ok.injEq] at h
    subst h
    exact ⟨hv, rfl, Or.inl rfl⟩
  | true =>
    rw [if_pos rfl] at h
    cases hg : call_final_gate env.finalGate with
    | error e => rw [hg] at h; simp at h
    | ok g =>
      rw [hg] at h
      dsimp only at h
      by_cases hga : (objGetD g "approved" (JVal.bool false)).truthy = true
      · rw [hga] at h
        rw [if_neg (by decide)] at h
        simp only [Except.ok.injEq] at h
        subst h
        refine ⟨?_, rfl, Or.inr rfl⟩
        simp only
        split
        · exact postGateFix_valid hv
        · exact hv
      · rw [Bool.not_eq_true] at hga
        rw [hga] at h
        rw [if_pos (by decide)] at h
        simp only [Except.ok.injEq] at h
        subst h
        exact ⟨hv, rfl, Or.inl rfl⟩

theorem run_cases (env : Env) (ci : JVal) (lenient : Bool) (r : PipeResult)
    (h : run_page_pipeline env ci lenient = .ok r) :
    isValidDraft r.draft = true ∧ r.rounds ≤ MAX_ROUNDS ∧
      (r.status = "fixer_failed" ∨ r.status = "blocked_by_final_gate" ∨
        r.status = "approved_for_publish") := by
  unfold run_page_pipeline at h
  cases ci with
  | null => simp at h
  | bool b => simp at h
  | num q => simp at h
  | str s => simp at h
  | arr xs => simp at h
  | obj cf =>
    dsimp only at h
    cases hw : call_writer env.writer1 with
    | error e => rw [hw] at h; simp at h
    | ok draft1 =>
      rw [hw] at h
      dsimp only at h
      cases hv1 : validate_writer_output draft1 with
      | error e => rw [hv1] at h; simp at h
      | ok p1 =>
        obtain ⟨valid1, issues1⟩ := p1
        rw [hv1] at h
        dsimp only at h
        -- reduce the retry step to an explicit case split
        have hmain : ∀ (draftC : JVal) (issuesC : JVal),
            validate_writer_output draftC = .ok (true, issuesC) →
            (match call_reviewer env.reviewerInit with
             | .error e => Except.error e
             | .ok review0 =>
               match fixLoop env lenient (JVal.obj cf) draftC review0
                   ((objGetD review0 "approved" (JVal.bool false)).truthy) 0 with
               | .error e => Except.error e
               | .ok (.early r2) => Except.ok r2
               | .ok (.done draftL reviewL approvedL roundsL) =>
                   finalStage env (JVal.obj cf) draftL reviewL approvedL
                     roundsL) = .ok r →
            isValidDraft r.draft = true ∧ r.rounds ≤ MAX_ROUNDS ∧
              (r.status = "fixer_failed" ∨ r.status = "blocked_by_final_gate" ∨
                r.status = "approved_for_publish") := by
          intro draftC issuesC hvC hrest
          have hvalid : isValidDraft draftC = true := by
            unfold isValidDraft validate_page_output
            rw [hvC]
          cases hrev : call_reviewer env.reviewerInit with
          | error e => rw [hrev] at hrest; simp at hrest
          | ok review0 =>
            rw [hrev] at hrest
            dsimp only at hrest
            cases hloop : fixLoop env lenient (JVal.obj cf) draftC review0
                ((objGetD review0 "approved" (JVal.bool false)).truthy) 0 with
            | error e => rw [hloop] at hrest; simp at hrest
            | ok out =>
              rw [hloop] at hrest
              have hlc := fixLoopAux_cases (MAX_ROUNDS - 0) env lenient
                (JVal.obj cf) draftC review0
                ((objGetD review0 "approved" (JVal.bool false)).truthy) 0 out
                hvalid hloop
              cases out with
              | early r2 =>
                simp only [Except.ok.injEq] at hrest
                subst hrest
                simp only at hlc
                exact ⟨hlc.2.2.1, by omega, Or.inl hlc.1⟩
              | done draftL reviewL approvedL roundsL =>
                simp only at hrest hlc
                have hfs := finalStage_cases env (JVal.obj cf) draftL reviewL
                  approvedL roundsL r hlc.1 hrest
                refine ⟨hfs.1, ?_, Or.inr hfs.2.2⟩
                rw [hfs.2.1]
                omega
        cases valid1 with
        | true =>
          rw [if_neg (by decide)] at h
          exact hmain draft1 issues1 hv1 h
        | false =>
          rw [if_pos rfl] at h
          cases hw2 : env.writer2 with
          | error e => rw [hw2] at h; simp at h
          | ok draft2 =>
            rw [hw2] at h
            dsimp only at h
            cases hv2 : validate_writer_output draft2 with
            | error e => rw [hv2] at h; simp at h
            | ok p2 =>
              obtain ⟨valid2, issues2⟩ := p2
              rw [hv2] at h
              dsimp only at h
              cases valid2 with
              | true =>
                rw [if_neg (by decide)] at h
                exact hmain draft2 issues2 hv2 h
              | false =>
                -- fallback path: build_fallback_draft returns None, the
                -- warning append raises, the whole call errors out
                rw [if_pos rfl] at h
                simp [build_fallback_draft, validate_writer_output,
                  extractDraftFields, pyGet, appendWarning] at h

/-! ## Claim theorems -/

/-- C1 (code bug): the spec requires `build_fallback_draft` to return a
deterministic, always-valid draft tagged `_fallback: true`, and
`run_page_pipeline` to return it when both Writer attempts fail validation.
In the source, `build_fallback_draft`'s body is truncated (its tail sits as
dead code inside `validate_page_output` after that function's `return`), so
it returns `None`; on the fallback path the pipeline then crashes with
`AttributeError` at `draft.setdefault("_warnings", []).append(...)` instead
of returning any draft. -/
theorem c1_fallback_returns_none_and_pipeline_crashes :
    build_fallback_draft fallbackCase = .ok .null ∧
    run_page_pipeline envC1 fallbackCase false = .error .attributeError :=
  ⟨rfl, rfl⟩

/-- C2 (code bug): the spec (and the function's own docstring) say that when
the fix/review loop exhausts `MAX_ROUNDS` without approval the terminal
status is `blocked_by_loop`.  In the source the `status = "blocked_by_loop"`
assignment on line 490 is dead: the unapproved branch overwrites it with
`"blocked_by_final_gate"` (line 535), with `final_gate = None` even though
no gate ran.  Concretely, a run whose reviewer never approves across all
three rounds ends with status `blocked_by_final_gate` and `rounds = 3`. -/
theorem c2_loop_exhaustion_yields_blocked_by_final_gate :
    run_page_pipeline envC2 todoCase false = .ok resC2 ∧
    resC2.status = "blocked_by_final_gate" ∧ resC2.final_gate = none ∧
    resC2.rounds = 3 :=
  ⟨rfl, rfl, rfl, rfl⟩

/-- C4: in any round of the fix/review loop, if the Fixer result carries an
`_error` marker or fails the Draft Validator (`fixCheck` reports invalid),
the loop returns immediately: the previous draft is kept, status is
`fixer_failed`, `approved` is false, the round counter is the aborting
round's index, and no further rounds run. -/
theorem c4_fixer_failure_aborts_loop (env : Env) (lenient : Bool)
    (ci draft : JVal) (review : List (String × JVal)) (rounds : Nat)
    (iss : JVal) (hr : rounds < MAX_ROUNDS)
    (hfix : fixCheck (call_fixer (env.fixer rounds)) = .ok (false, iss)) :
    fixLoop env lenient ci draft review false rounds =
      .ok (.early { caseInput := ci, draft := draft, review := some review,
                    final_gate := none, rounds := rounds + 1,
                    approved := false, status := "fixer_failed",
                    issues := some iss }) := by
  obtain ⟨k, hk⟩ :=
    Nat.exists_eq_succ_of_ne_zero (Nat.pos_iff_ne_zero.mp (Nat.sub_pos_of_lt hr))
  unfold fixLoop
  rw [hk]
  simp [fixLoopAux, hfix]

/-- C4 witness: a Fixer call that raises aborts round 1 with the previous
draft kept. -/
theorem c4_witness :
    0 < MAX_ROUNDS ∧
    fixCheck (call_fixer (envC4.fixer 0)) =
      .ok (false, .obj [("_error", .str "fixer_call_failed: boom")]) ∧
    fixLoop envC4 false todoCase goodDraft [("approved", JVal.bool false)]
        false 0 =
      .ok (.early { caseInput := todoCase, draft := goodDraft,
                    review := some [("approved", JVal.bool false)],
                    final_gate := none, rounds := 1, approved := false,
                    status := "fixer_failed",
                    issues :=
                      some (.obj [("_error",
                        .str "fixer_call_failed: boom")]) }) :=
  ⟨by decide, rfl,
   c4_fixer_failure_aborts_loop envC4 false todoCase goodDraft
     [("approved", JVal.bool false)] 0
     (.obj [("_error", .str "fixer_call_failed: boom")]) (by decide) rfl⟩

/-- C5: when the Final Gate approves with non-empty `fix_suggestions` and
the follow-up fixer pass fails (throws, returns an `_error` marker, or
produces content failing the Draft Validator — all captured by
`finalFixOk = false`), the final stage still returns status
`approved_for_publish` with the pre-gate draft retained unchanged. -/
theorem c5_late_fixer_failure_keeps_pre_gate_draft (env : Env)
    (ci draft : JVal) (review g : List (String × JVal)) (rounds : Nat)
    (hg : call_final_gate env.finalGate = .ok g)
    (hap : (objGetD g "approved" (.bool false)).truthy = true)
    (hsugg : (objGetD g "fix_suggestions" .null).truthy = true)
    (hfail : finalFixOk env.finalFixer = false) :
    finalStage env ci draft review true rounds =
      .ok { caseInput := ci, draft := draft, review := some review,
            final_gate := some g, rounds := rounds, approved := true,
            status := "approved_for_publish" } := by
  unfold finalStage
  rw [hg]
  simp [hap, hsugg, postGateFix_of_fail hfail]

/-- C5 witness: gate approves with a suggestion, the late fixer call raises,
and the pre-gate draft is returned with status `approved_for_publish`. -/
theorem c5_witness :
    call_final_gate envC5.finalGate =
      .ok [("approved", JVal.bool true),
           ("fix_suggestions", JVal.arr [.str "shorten headline"])] ∧
    finalFixOk envC5.finalFixer = false ∧
    finalStage envC5 todoCase goodDraft [("approved", JVal.bool true)] true 1 =
      .ok { caseInput := todoCase, draft := goodDraft,
            review := some [("approved", JVal.bool true)],
            final_gate := some [("approved", JVal.bool true),
              ("fix_suggestions", JVal.arr [.str "shorten headline"])],
            rounds := 1, approved := true,
            status := "approved_for_publish" } :=
  ⟨rfl, rfl,
   c5_late_fixer_failure_keeps_pre_gate_draft envC5 todoCase goodDraft
     [("approved", JVal.bool true)]
     [("approved", JVal.bool true),
      ("fix_suggestions", JVal.arr [.str "shorten headline"])] 1
     rfl rfl rfl rfl⟩

/-- C7 counterexample: the claim says a loop-reviewer response lacking
`approved` comes back with `approved=false` *and* a synthesized reason
noting the omission.  For a response that already has a `reasons` list,
`setdefault` leaves it untouched: `approved=false` is set but no omission
reason appears anywhere. -/
theorem c7_counterexample :
    call_reviewer (.ok (.obj [("reasons", .arr [.str "looks fine"])])) =
      .ok [("reasons", .arr [.str "looks fine"]),
           ("approved", .bool false)] ∧
    mentionsOmission
      [("reasons", JVal.arr [.str "looks fine"]),
       ("approved", JVal.bool false)] = false :=
  ⟨rfl, rfl⟩

/-- C7 (amended): a loop-reviewer response lacking `approved` is returned
with `approved=false` (never silently approved); the synthesized omission
reason is added exactly when the response also lacks a `reasons` key,
otherwise the existing `reasons` are kept unchanged.  The Final Gate, by
contrast, raises a hard `ValueError` when `approved` is absent. -/
theorem c7_reviewer_defaults_gate_raises (fs gs : List (String × JVal))
    (hf : hasKey fs "approved" = false) (hg : hasKey gs "approved" = false) :
    (∃ out, call_reviewer (.ok (.obj fs)) = .ok out ∧
       alookup out "approved" = some (.bool false) ∧
       (hasKey fs "reasons" = false →
         alookup out "reasons" = some (.arr [.str reviewerOmissionReason])) ∧
       (hasKey fs "reasons" = true →
         alookup out "reasons" = alookup fs "reasons")) ∧
    call_final_gate (.ok (.obj gs)) =
      .error (.valueError "Final gate 응답에 approved 필드가 없습니다.") := by
  constructor
  · have hout : call_reviewer (.ok (.obj fs)) =
        .ok (setdefaultKeep (objSet fs "approved" (.bool false)) "reasons"
              (.arr [.str reviewerOmissionReason])) := by
      unfold call_reviewer
      simp only [hf, Bool.false_eq_true, if_false]
    have hx1 : hasKey [("approved", JVal.bool false)] "approved" = true := by
      decide
    have hx2 : hasKey [("approved", JVal.bool false)] "reasons" = false := by
      decide
    have h1 : hasKey (fs ++ [("approved", JVal.bool false)]) "approved" = true := by
      rw [hasKey_append, hf, hx1]
      rfl
    refine ⟨_, hout, ?_, ?_, ?_⟩
    · rw [objSet_of_not_hasKey hf]
      unfold setdefaultKeep
      by_cases h2 : hasKey (fs ++ [("approved", JVal.bool false)]) "reasons" = true
      · simp only [h2, if_true]
        rw [alookup_append_right hf]
        simp [alookup]
      · rw [Bool.not_eq_true] at h2
        simp only [h2, Bool.false_eq_true, if_false]
        rw [alookup_append_left h1, alookup_append_right hf]
        simp [alookup]
    · intro hnr
      rw [objSet_of_not_hasKey hf]
      unfold setdefaultKeep
      have h2 : hasKey (fs ++ [("approved", JVal.bool false)]) "reasons" = false := by
        rw [hasKey_append, hnr, hx2]
        rfl
      simp only [h2, Bool.false_eq_true, if_false]
      rw [alookup_append_right h2]
      simp [alookup]
    · intro hyr
      rw [objSet_of_not_hasKey hf]
      unfold setdefaultKeep
      have h2 : hasKey (fs ++ [("approved", JVal.bool false)]) "reasons" = true := by
        rw [hasKey_append, hyr]
        rfl
      simp only [h2, if_true]
      exact alookup_append_left hyr
  · unfold call_final_gate
    simp only [hg, Bool.false_eq_true, if_false]

/-- C7 witness: a reviewer response with only a `reasons` key and a gate
response with only a `reasons` key. -/
theorem c7_witness :
    hasKey [("reasons", JVal.arr [.str "ok"])] "approved" = false ∧
    call_final_gate (.ok (.obj [("reasons", JVal.arr [.str "ok"])])) =
      .error (.valueError "Final gate 응답에 approved 필드가 없습니다.") :=
  ⟨by decide,
   (c7_reviewer_defaults_gate_raises [("reasons", JVal.arr [.str "ok"])]
     [("reasons", JVal.arr [.str "ok"])] (by decide) (by decide)).2⟩

/-- C9 counterexample: the claim says a top-level shape that is neither an
array nor an object containing a known wrapper key is rejected with an
error.  A dict with none of the wrapper keys is *not* rejected: it is
silently coerced into the single-element list `[obj]`. -/
theorem c9_counterexample :
    extract_list (.obj [("foo", .num 1)])
        ["result", "results", "keywords", "items"] =
      .ok [.obj [("foo", .num 1)]] :=
  rfl

/-- C9 (amended): a top-level value that is neither an array nor an object
is rejected with an error, and an object whose first present wrapper key
holds a non-array is rejected with an error; but an object containing none
of the wrapper keys is coerced into the single-element list `[obj]`, not
rejected. -/
theorem c9_extract_list_classification (v : JVal) (keys : List String) :
    (isContainer v = false →
      extract_list v keys =
        .error (.valueError "LLM 응답이 배열이나 객체가 아닙니다.")) ∧
    (∀ fs, v = .obj fs → firstCandidate fs keys = none →
      extract_list v keys = .ok [v]) ∧
    (∀ fs k w, v = .obj fs → firstCandidate fs keys = some (k, w) →
      isArr w = false →
      extract_list v keys = .error (.valueError (k ++ " 값이 배열이 아닙니다."))) := by
  refine ⟨?_, ?_, ?_⟩
  · intro h
    cases v <;> simp_all [isContainer, extract_list]
  · intro fs hv hnone
    subst hv
    simp [extract_list, hnone]
  · intro fs k w hv hfound hw
    subst hv
    cases w <;> simp_all [isArr, extract_list]

/-- C9 witness: a bare string is rejected, a wrapper key holding a string is
rejected, and a keyless object is coerced. -/
theorem c9_witness :
    extract_list (.str "oops") ["result"] =
      .error (.valueError "LLM 응답이 배열이나 객체가 아닙니다.") ∧
    extract_list (.obj [("result", .str "flat")]) ["result"] =
      .error (.valueError ("result" ++ " 값이 배열이 아닙니다.")) ∧
    extract_list (.obj [("x", JVal.null)]) ["result"] =
      .ok [.obj [("x", JVal.null)]] :=
  ⟨(c9_extract_list_classification (.str "oops") ["result"]).1 (by decide),
   (c9_extract_list_classification (.obj [("result", .str "flat")])
       ["result"]).2.2 [("result", JVal.str "flat")] "result" (.str "flat")
     rfl rfl (by decide),
   (c9_extract_list_classification (.obj [("x", JVal.null)]) ["result"]).2.1
     [("x", JVal.null)] rfl rfl⟩

theorem run_all_go_statuses :
    ∀ (cases : List JVal) (denv : DriverEnv) (lenient : Bool)
      (maxc processed : Nat) (out : List PipeResult × List JVal),
      run_all_go denv lenient maxc cases processed = .ok out →
      ∀ r ∈ out.1,
        r.status = "fixer_failed" ∨ r.status = "blocked_by_final_gate" ∨
          r.status = "approved_for_publish" := by
  intro cases
  induction cases with
  | nil =>
    intro denv lenient maxc processed out h
    simp only [run_all_go, Except.ok.injEq] at h
    subst h
    simp
  | cons c rest ih =>
    intro denv lenient maxc processed out h
    simp only [run_all_go] at h
    by_cases hm : maxc ≤ processed
    · rw [if_pos hm] at h
      simp only [Except.ok.injEq] at h
      subst h
      simp
    · rw [if_neg hm] at h
      cases c with
      | obj cf =>
        dsimp only at h
        by_cases ht : isTodoStatus (objGetD cf "status" JVal.null) = false
        · rw [if_pos ht] at h
          cases hrec : run_all_go denv lenient maxc rest processed with
          | error e => rw [hrec] at h; simp at h
          | ok p =>
            rw [hrec] at h
            dsimp only at h
            simp only [Except.ok.injEq] at h
            subst h
            intro r hr
            simp only [List.mem_cons] at hr  -- no cons here; p.1 membership
            exact ih denv lenient maxc processed p hrec r hr
        · rw [if_neg ht] at h
          cases hp : run_page_pipeline (denv.pipeEnv processed) (.obj cf) lenient with
          | error e => rw [hp] at h; simp at h
          | ok pr =>
            rw [hp] at h
            dsimp only at h
            cases hrec : run_all_go denv lenient maxc rest (processed + 1) with
            | error e => rw [hrec] at h; simp at h
            | ok p =>
              rw [hrec] at h
              dsimp only at h
              simp only [Except.ok.injEq] at h
              subst h
              intro r hr
              simp only [List.mem_cons] at hr
              cases hr with
              | inl hhead =>
                subst hhead
                have := (run_cases (denv.pipeEnv processed) (.obj cf) lenient
                  pr hp).2.2
                simpa using this
              | inr htail =>
                exact ih denv lenient maxc (processed + 1) p hrec r htail
      | null => simp at h
      | bool b => simp at h
      | num q => simp at h
      | str s => simp at h
      | arr xs => simp at h

/-- C3: regression safety.  The fix/review loop never replaces a
validator-passing working draft with one that fails the validator (the loop
aborts instead, keeping the previous draft), the post-gate fixer pass
adopts its revision only when it validates, and consequently every result
`run_page_pipeline` returns whose status is not `writer_hard_fail` carries a
draft accepted by the Draft Validator. -/
theorem c3_valid_draft_never_regresses (env : Env) (lenient : Bool)
    (ci : JVal) :
    (∀ remaining draft review ap rounds out,
       isValidDraft draft = true →
       fixLoopAux env lenient ci remaining draft review ap rounds = .ok out →
       isValidDraft (loopOutDraft out) = true) ∧
    (∀ resp safe, isValidDraft safe = true →
       isValidDraft (postGateFix resp safe) = true) ∧
    (∀ r, run_page_pipeline env ci lenient = .ok r →
       r.status ≠ "writer_hard_fail" → isValidDraft r.draft = true) := by
  refine ⟨?_, ?_, ?_⟩
  · intro remaining draft review ap rounds out hv h
    have := fixLoopAux_cases remaining env lenient ci draft review ap rounds
      out hv h
    cases out with
    | early r => exact this.2.2.1
    | done d rv a r2 => exact this.1
  · intro resp safe hs
    exact postGateFix_valid hs
  · intro r h _
    exact (run_cases env ci lenient r h).1

/-- C3 witness: under `envC2` the pipeline returns `resC2`, whose draft
passes the validator. -/
theorem c3_witness :
    run_page_pipeline envC2 todoCase false = .ok resC2 ∧
    isValidDraft resC2.draft = true :=
  ⟨rfl, (c3_valid_draft_never_regresses envC2 false todoCase).2.2 resC2 rfl
    (by decide)⟩

/-- C6: the fix/review loop always terminates within the configured round
cap: every result `run_page_pipeline` returns has `rounds ≤ MAX_ROUNDS = 3`
(each loop iteration performs exactly one in-loop Fixer call and increments
the round counter, and the early `fixer_failed` return reports the aborting
round's index, so the Fixer is invoked at most 3 times). -/
theorem c6_round_cap (env : Env) (ci : JVal) (lenient : Bool)
    (r : PipeResult) (h : run_page_pipeline env ci lenient = .ok r) :
    r.rounds ≤ MAX_ROUNDS :=
  (run_cases env ci lenient r h).2.1

/-- C6 witness: the reviewer-never-approves run exhausts the loop with
exactly `rounds = 3 = MAX_ROUNDS`. -/
theorem c6_witness :
    run_page_pipeline envC2 todoCase false = .ok resC2 ∧
    resC2.rounds = 3 ∧ resC2.rounds ≤ MAX_ROUNDS :=
  ⟨rfl, rfl, c6_round_cap envC2 todoCase false resC2 rfl⟩

/-- C8 counterexample: the claim says no unhandled exception escapes the
driver loop because every external call in the hot path has a
catch/fallback.  The Final Gate's `ValueError` (raised on a response
without `approved`) is uncaught in both `run_page_pipeline` and
`run_all_cases`: the whole driver call errors out on the very first case. -/
theorem c8_counterexample :
    run_all_cases denvC8 [todoCase] false 10 =
      .error (.valueError "Final gate 응답에 approved 필드가 없습니다.") :=
  rfl

/-- C8 (amended): when `run_all_cases` returns at all, every produced result
carries one of the fixed terminal statuses (`fixer_failed`,
`blocked_by_final_gate`, `approved_for_publish`); but exceptions raised by
the Writer, Reviewer, or Final Gate calls propagate out of the driver loop
uncaught, so the iteration over remaining cases is not guaranteed to
complete. -/
theorem c8_driver_statuses (denv : DriverEnv) (cases : List JVal)
    (lenient : Bool) (maxc : Nat) (out : List PipeResult × List JVal)
    (h : run_all_cases denv cases lenient maxc = .ok out) :
    ∀ r ∈ out.1,
      r.status = "fixer_failed" ∨ r.status = "blocked_by_final_gate" ∨
        r.status = "approved_for_publish" :=
  run_all_go_statuses cases denv lenient maxc 0 out h

/-- C8 witness: a fully successful batch returns one result with status
`approved_for_publish`, which the theorem places in the terminal set. -/
theorem c8_witness :
    run_all_cases denvHappy [todoCase] false 10 =
      .ok ([resHappy], [caseHappyOut]) ∧
    (resHappy.status = "fixer_failed" ∨
      resHappy.status = "blocked_by_final_gate" ∨
      resHappy.status = "approved_for_publish") :=
  ⟨rfl, c8_driver_statuses denvHappy [todoCase] false 10
    ([resHappy], [caseHappyOut]) rfl resHappy (by simp)⟩

/-! ## Decimal-digit round-trip lemmas -/

theorem digitChar_isDigit {n : Nat} (h : n < 10) :
    (digitChar n).isDigit = true := by
  interval_cases n <;> decide

theorem digitChar_toNat {n : Nat} (h : n < 10) :
    (digitChar n).toNat = 48 + n := by
  interval_cases n <;> decide

theorem digitChar_ne_zeroChar {n : Nat} (h0 : 0 < n) (h : n < 10) :
    digitChar n ≠ '0' := by
  interval_cases n <;> decide

theorem isDigit_ne {c d : Char} (hc : c.isDigit = true)
    (hd : d.isDigit = false) : c ≠ d := by
  intro he
  subst he
  rw [hc] at hd
  cases hd

theorem natCharsAux_digits {fuel n : Nat} (h : n < fuel) :
    ∀ c ∈ natCharsAux fuel n, c.isDigit = true := by
  induction fuel generalizing n with
  | zero => omega
  | succ f ih =>
    intro c hc
    unfold natCharsAux at hc
    by_cases h10 : n < 10
    · rw [if_pos h10] at hc
      simp only [List.mem_singleton] at hc
      subst hc
      exact digitChar_isDigit h10
    · rw [if_neg h10] at hc
      simp only [List.mem_append, List.mem_singleton] at hc
      cases hc with
      | inl h1 => exact ih (by omega) c h1
      | inr h2 =>
        subst h2
        exact digitChar_isDigit (Nat.mod_lt _ (by omega))

theorem natCharsAux_ne_nil {fuel n : Nat} (h : n < fuel) :
    natCharsAux fuel n ≠ [] := by
  cases fuel with
  | zero => omega
  | succ f =>
    unfold natCharsAux
    by_cases h10 : n < 10
    · rw [if_pos h10]; simp
    · rw [if_neg h10]; simp

theorem natCharsAux_foldl {fuel : Nat} :
    ∀ {n : Nat}, n < fuel → ∀ acc : Nat,
    (natCharsAux fuel n).foldl (fun a c => a * 10 + (c.toNat - 48)) acc =
      acc * 10 ^ (natCharsAux fuel n).length + n := by
  induction fuel with
  | zero => intro n h; omega
  | succ f ih =>
    intro n h acc
    unfold natCharsAux
    by_cases h10 : n < 10
    · rw [if_pos h10]
      simp only [List.foldl_cons, List.foldl_nil, List.length_singleton]
      rw [digitChar_toNat h10]
      omega
    · rw [if_neg h10]
      rw [List.foldl_append, List.length_append]
      rw [ih (by omega) acc]
      simp only [List.foldl_cons, List.foldl_nil, List.length_singleton]
      rw [digitChar_toNat (Nat.mod_lt _ (by omega))]
      rw [pow_succ]
      have hdm : n / 10 * 10 + n % 10 = n := by omega
      set L := (natCharsAux f (n / 10)).length
      have : 48 + n % 10 - 48 = n % 10 := by omega
      rw [this]
      calc (acc * 10 ^ L + n / 10) * 10 + n % 10
          = acc * (10 ^ L * 10) + (n / 10 * 10 + n % 10) := by ring
        _ = acc * (10 ^ L * 10) + n := by rw [hdm]

theorem natCharsAux_head {fuel : Nat} :
    ∀ {n : Nat}, n < fuel → 0 < n →
    ∃ c ds, natCharsAux fuel n = c :: ds ∧ c.isDigit = true ∧ c ≠ '0' := by
  induction fuel with
  | zero => intro n h; omega
  | succ f ih =>
    intro n h hp
    unfold natCharsAux
    by_cases h10 : n < 10
    · rw [if_pos h10]
      exact ⟨digitChar n, [], rfl, digitChar_isDigit h10,
        digitChar_ne_zeroChar hp h10⟩
    · rw [if_neg h10]
      obtain ⟨c, ds, hL, hd, hne⟩ := ih (n := n / 10) (by omega) (by omega)
      refine ⟨c, ds ++ [digitChar (n % 10)], ?_, hd, hne⟩
      rw [hL]
      rfl

theorem parseDigitsAux_append {ds rest : List Char} {acc : Nat}
    (hd : ∀ c ∈ ds, c.isDigit = true) (hr : headNotDigit rest) :
    parseDigitsAux (ds ++ rest) acc =
      (ds.foldl (fun a c => a * 10 + (c.toNat - 48)) acc, rest) := by
  induction ds generalizing acc with
  | nil =>
    cases rest with
    | nil => rfl
    | cons c r =>
      unfold headNotDigit at hr
      simp only [List.nil_append]
      unfold parseDigitsAux
      rw [if_neg (by rw [hr]; simp)]
      rfl
  | cons c ds ih =>
    have hc : c.isDigit = true := hd c (by simp)
    simp only [List.cons_append]
    unfold parseDigitsAux
    rw [if_pos hc]
    rw [ih (fun d hdm => hd d (by simp [hdm]))]
    rfl

theorem parseIntPart_natChars (n : Nat) (rest : List Char)
    (hr : headNotDigit rest) :
    parseIntPart (natChars n ++ rest) = some (n, rest) := by
  cases Nat.eq_zero_or_pos n with
  | inl h0 =>
    subst h0
    cases rest with
    | nil => rfl
    | cons c r =>
      unfold headNotDigit at hr
      rfl
  | inr hp =>
    obtain ⟨c, ds, hL, hdig, hne0⟩ :=
      natCharsAux_head (n := n) (Nat.lt_succ_self n) hp
    unfold natChars
    rw [hL]
    simp only [List.cons_append]
    unfold parseIntPart
    dsimp only
    rw [if_neg hne0, if_pos hdig]
    have hds : ∀ d ∈ ds, d.isDigit = true := by
      intro d hdm
      exact natCharsAux_digits (Nat.lt_succ_self n) d (by rw [hL]; simp [hdm])
    rw [parseDigitsAux_append hds hr]
    have hfold := natCharsAux_foldl (Nat.lt_succ_self n) 0
    rw [hL] at hfold
    simp only [List.foldl_cons, Nat.zero_mul, Nat.zero_add] at hfold
    rw [hfold]

theorem ratCast_num {q : ℚ} (h : q.den = 1) : (q.num : ℚ) = q := by
  conv_rhs => rw [← Rat.num_div_den q]
  rw [h]
  simp

theorem numStop_headNotDigit {rest : List Char} (h : numStop rest) :
    headNotDigit rest := by
  cases rest with
  | nil => trivial
  | cons c r => exact h.1

theorem parseFrac_stop {rest : List Char} (h : numStop rest) :
    parseFrac rest = some (0, rest) := by
  cases rest with
  | nil => rfl
  | cons c r =>
    unfold parseFrac
    dsimp only
    rw [if_neg h.2.1]

theorem parseExpPart_stop {rest : List Char} (h : numStop rest) :
    parseExpPart rest = some (1, rest) := by
  cases rest with
  | nil => rfl
  | cons c r =>
    unfold parseExpPart
    dsimp only
    rw [if_neg (by simp [h.2.2.1, h.2.2.2])]

theorem parseNumber_intChars (i : Int) (rest : List Char) (hr : numStop rest) :
    parseNumber (intChars i ++ rest) = some ((i : ℚ), rest) := by
  by_cases hi : i < 0
  · have hchars : intChars i = '-' :: natChars i.natAbs := by
      unfold intChars
      rw [if_pos hi]
    rw [hchars]
    simp only [List.cons_append]
    unfold parseNumber
    dsimp only
    rw [if_pos rfl]
    rw [parseIntPart_natChars _ _ (numStop_headNotDigit hr)]
    dsimp only
    rw [parseFrac_stop hr]
    dsimp only
    rw [parseExpPart_stop hr]
    dsimp only
    simp only [Option.some.injEq, Prod.mk.injEq, and_true]
    rw [if_true]
    have habs : ((i.natAbs : ℚ)) = -(i : ℚ) := by
      rw [Int.cast_natAbs, abs_of_nonpos (le_of_lt hi)]
      push_cast
      ring
    rw [habs]
    ring
  · have hchars : intChars i = natChars i.toNat := by
      unfold intChars
      rw [if_neg hi]
    rw [hchars]
    obtain ⟨c, ds, hL⟩ : ∃ c ds, natChars i.toNat = c :: ds := by
      cases hL : natChars i.toNat with
      | nil => exact absurd hL (natCharsAux_ne_nil (Nat.lt_succ_self _))
      | cons c ds => exact ⟨c, ds, rfl⟩
    have hdig : c.isDigit = true :=
      natCharsAux_digits (Nat.lt_succ_self _) c (by rw [← natChars, hL]; simp)
    rw [hL]
    simp only [List.cons_append]
    unfold parseNumber
    dsimp only
    rw [if_neg (isDigit_ne hdig (by decide))]
    rw [show (c :: (ds ++ rest)) = (c :: ds) ++ rest from rfl, ← hL]
    rw [parseIntPart_natChars _ _ (numStop_headNotDigit hr)]
    dsimp only
    rw [parseFrac_stop hr]
    dsimp only
    rw [parseExpPart_stop hr]
    dsimp only
    simp only [Option.some.injEq, Prod.mk.injEq, and_true]
    simp only [Bool.false_eq_true, if_false]
    have htn : ((i.toNat : ℚ)) = (i : ℚ) := by
      have h1 : ((i.toNat : ℤ) : ℚ) = (i : ℚ) := by
        rw [Int.toNat_of_nonneg (by omega)]
      push_cast at h1
      exact h1
    rw [htn]
    ring

/-! ## String-escape round-trip lemmas -/

theorem escCode?_ne_u {e c : Char} (h : escCode? e = some c) : e ≠ 'u' := by
  intro he
  subst he
  rw [show escCode? 'u' = none from rfl] at h
  cases h

theorem escCode?_cases {e c : Char} (h : escCode? e = some c) :
    (e = '"' ∧ c = '"') ∨ (e = '\\' ∧ c = '\\') ∨ (e = '/' ∧ c = '/') ∨
    (e = 'n' ∧ c = '\n') ∨ (e = 'r' ∧ c = '\r') ∨ (e = 't' ∧ c = '\t') ∨
    (e = 'b' ∧ c = '\x08') ∨ (e = 'f' ∧ c = '\x0c') := by
  unfold escCode? at h
  by_cases h1 : e = '"'
  · rw [if_pos h1] at h
    simp only [Option.some.injEq] at h
    exact Or.inl ⟨h1, h.symm⟩
  rw [if_neg h1] at h
  by_cases h2 : e = '\\'
  · rw [if_pos h2] at h
    simp only [Option.some.injEq] at h
    exact Or.inr (Or.inl ⟨h2, h.symm⟩)
  rw [if_neg h2] at h
  by_cases h3 : e = '/'
  · rw [if_pos h3] at h
    simp only [Option.some.injEq] at h
    exact Or.inr (Or.inr (Or.inl ⟨h3, h.symm⟩))
  rw [if_neg h3] at h
  by_cases h4 : e = 'n'
  · rw [if_pos h4] at h
    simp only [Option.some.injEq] at h
    exact Or.inr (Or.inr (Or.inr (Or.inl ⟨h4, h.symm⟩)))
  rw [if_neg h4] at h
  by_cases h5 : e = 'r'
  · rw [if_pos h5] at h
    simp only [Option.some.injEq] at h
    exact Or.inr (Or.inr (Or.inr (Or.inr (Or.inl ⟨h5, h.symm⟩))))
  rw [if_neg h5] at h
  by_cases h6 : e = 't'
  · rw [if_pos h6] at h
    simp only [Option.some.injEq] at h
    exact Or.inr (Or.inr (Or.inr (Or.inr (Or.inr (Or.inl ⟨h6, h.symm⟩)))))
  rw [if_neg h6] at h
  by_cases h7 : e = 'b'
  · rw [if_pos h7] at h
    simp only [Option.some.injEq] at h
    exact Or.inr (Or.inr (Or.inr (Or.inr (Or.inr (Or.inr (Or.inl ⟨h7, h.symm⟩))))))
  rw [if_neg h7] at h
  by_cases h8 : e = 'f'
  · rw [if_pos h8] at h
    simp only [Option.some.injEq] at h
    exact Or.inr (Or.inr (Or.inr (Or.inr (Or.inr (Or.inr (Or.inr ⟨h8, h.symm⟩))))))
  rw [if_neg h8] at h
  cases h

theorem hexVal?_hexDigitChar {k : Nat} (h : k < 16) :
    hexVal? (hexDigitChar k) = some k := by
  interval_cases k <;> decide

theorem parseStringBody_escapePair {e c : Char} (h : escCode? e = some c)
    (fuel : Nat) (T : List Char) :
    parseStringBody (fuel + 1) ('\\' :: e :: T) =
      (parseStringBody fuel T).map (fun p => (c :: p.1, p.2)) := by
  rcases escCode?_cases h with ⟨he, hc⟩ | ⟨he, hc⟩ | ⟨he, hc⟩ | ⟨he, hc⟩ |
    ⟨he, hc⟩ | ⟨he, hc⟩ | ⟨he, hc⟩ | ⟨he, hc⟩ <;> subst he <;> subst hc <;> rfl

theorem parseStringBody_escChar (c : Char) (fuel : Nat) (X : List Char) :
    parseStringBody (fuel + 1) (escChar c ++ X) =
      (parseStringBody fuel X).map (fun p => (c :: p.1, p.2)) := by
  unfold escChar
  by_cases h1 : c = '"'
  · subst h1
    rw [if_pos rfl]
    exact parseStringBody_escapePair (by decide) fuel X
  rw [if_neg h1]
  by_cases h2 : c = '\\'
  · subst h2
    rw [if_pos rfl]
    exact parseStringBody_escapePair (by decide) fuel X
  rw [if_neg h2]
  by_cases h3 : c = '\n'
  · subst h3
    rw [if_pos rfl]
    exact parseStringBody_escapePair (by decide) fuel X
  rw [if_neg h3]
  by_cases h4 : c = '\r'
  · subst h4
    rw [if_pos rfl]
    exact parseStringBody_escapePair (by decide) fuel X
  rw [if_neg h4]
  by_cases h5 : c = '\t'
  · subst h5
    rw [if_pos rfl]
    exact parseStringBody_escapePair (by decide) fuel X
  rw [if_neg h5]
  by_cases h6 : c = '\x08'
  · subst h6
    rw [if_pos rfl]
    exact parseStringBody_escapePair (by decide) fuel X
  rw [if_neg h6]
  by_cases h7 : c = '\x0c'
  · subst h7
    rw [if_pos rfl]
    exact parseStringBody_escapePair (by decide) fuel X
  rw [if_neg h7]
  by_cases h8 : c.toNat < 32
  · rw [if_pos h8]
    have e1 := hexVal?_hexDigitChar (k := c.toNat / 16) (by omega)
    have e2 := hexVal?_hexDigitChar (k := c.toNat % 16) (by omega)
    simp only [List.cons_append, List.nil_append]
    have h1 : parseStringBody (fuel + 1) ('\\' :: 'u' :: '0' :: '0' ::
        hexDigitChar (c.toNat / 16) :: hexDigitChar (c.toNat % 16) :: X) =
        parseUHexCont (hexVal? '0') (hexVal? '0')
          (hexVal? (hexDigitChar (c.toNat / 16)))
          (hexVal? (hexDigitChar (c.toNat % 16)))
          (parseStringBody fuel X) := rfl
    rw [h1, e1, e2, show hexVal? '0' = some 0 from rfl]
    unfold parseUHexCont
    dsimp only
    have hneq : ((0 * 16 + 0) * 16 + c.toNat / 16) * 16 + c.toNat % 16 =
        c.toNat := by omega
    rw [hneq]
    rw [dif_pos (Or.inl (by omega : c.toNat < 0xd800))]
    rw [Char.ofNat_toNat]
  · rw [if_neg h8]
    rw [List.singleton_append]
    simp only [parseStringBody]
    rw [if_neg h1, if_neg h2, if_neg h8]

theorem parseStringBody_escape (cs rest : List Char) :
    ∀ fuel, cs.length < fuel →
    parseStringBody fuel (cs.flatMap escChar ++ '"' :: rest) =
      some (cs, rest) := by
  induction cs with
  | nil =>
    intro fuel hf
    obtain ⟨f, rfl⟩ : ∃ f, fuel = f + 1 := ⟨fuel - 1, by omega⟩
    simp only [List.flatMap_nil, List.nil_append]
    rfl
  | cons c cs ih =>
    intro fuel hf
    obtain ⟨f, rfl⟩ : ∃ f, fuel = f + 1 := ⟨fuel - 1, by omega⟩
    rw [List.flatMap_cons, List.append_assoc, parseStringBody_escChar,
      ih f (by simp only [List.length_cons] at hf; omega)]
    rfl

theorem length_le_flatMap_escChar (cs : List Char) :
    cs.length ≤ (cs.flatMap escChar).length := by
  induction cs with
  | nil => simp
  | cons c cs ih =>
    rw [List.flatMap_cons, List.length_append, List.length_cons]
    have h1 : 1 ≤ (escChar c).length := by
      unfold escChar
      split_ifs <;> simp
    omega

theorem stringMk_toList (s : String) : String.mk s.toList = s := rfl

/-! ## Printed-value head and size lemmas -/

theorem natChars_head_digit (n : Nat) :
    ∃ c t, natChars n = c :: t ∧ c.isDigit = true := by
  cases hL : natChars n with
  | nil =>
    exact absurd (by unfold natChars at hL; exact hL)
      (natCharsAux_ne_nil (Nat.lt_succ_self _))
  | cons c t =>
    refine ⟨c, t, rfl, ?_⟩
    apply @natCharsAux_digits (n + 1) n (Nat.lt_succ_self _) c
    unfold natChars at hL
    rw [hL]
    simp

theorem dumpVal_head {v : JVal} (hs : storable v = true) :
    ∃ c t, dumpVal v = c :: t ∧ valHead c = true := by
  cases v with
  | null => exact ⟨'n', _, rfl, by decide⟩
  | bool b =>
    cases b with
    | false => exact ⟨'f', _, rfl, by decide⟩
    | true => exact ⟨'t', _, rfl, by decide⟩
  | num q =>
    have hden : q.den = 1 := by
      unfold storable at hs
      exact of_decide_eq_true hs
    have h1 : dumpVal (.num q) = intChars q.num := by
      show numChars q = intChars q.num
      unfold numChars
      rw [if_pos hden]
    rw [h1]
    unfold intChars
    by_cases hn : q.num < 0
    · rw [if_pos hn]
      exact ⟨'-', _, rfl, by decide⟩
    · rw [if_neg hn]
      obtain ⟨c, t, hL, hd⟩ := natChars_head_digit q.num.toNat
      refine ⟨c, t, hL, ?_⟩
      unfold valHead
      rw [hd]
      simp
  | str s => exact ⟨'"', _, rfl, by decide⟩
  | arr xs => exact ⟨'[', _, rfl, by decide⟩
  | obj fs => exact ⟨lbraceC, _, rfl, by decide⟩

theorem valHead_facts {c : Char} (h : valHead c = true) :
    isWsChar c = false ∧ c ≠ ']' ∧ c ≠ ',' ∧ c ≠ rbraceC ∧ c ≠ ':' := by
  unfold valHead at h
  simp only [Bool.or_eq_true, decide_eq_true_eq] at h
  rcases h with (((((((h | h) | h) | h) | h) | h) | h) | h)
  · subst h; exact ⟨by decide, by decide, by decide, by decide, by decide⟩
  · subst h; exact ⟨by decide, by decide, by decide, by decide, by decide⟩
  · subst h; exact ⟨by decide, by decide, by decide, by decide, by decide⟩
  · subst h; exact ⟨by decide, by decide, by decide, by decide, by decide⟩
  · subst h; exact ⟨by decide, by decide, by decide, by decide, by decide⟩
  · have hne : ∀ d : Char, d.isDigit = false → c ≠ d := fun d hd =>
      isDigit_ne h hd
    refine ⟨?_, hne _ (by decide), hne _ (by decide), hne _ (by decide),
      hne _ (by decide)⟩
    unfold isWsChar
    simp [hne ' ' (by decide), hne '\t' (by decide), hne '\n' (by decide),
      hne '\r' (by decide)]
  · subst h; exact ⟨by decide, by decide, by decide, by decide, by decide⟩
  · subst h; exact ⟨by decide, by decide, by decide, by decide, by decide⟩

theorem dropWhile_ws_not {c : Char} (h : isWsChar c = false)
    (t : List Char) : List.dropWhile isWsChar (c :: t) = c :: t := by
  rw [List.dropWhile_cons, h]
  simp

theorem dropWhile_ws_of_valHead {c : Char} (h : valHead c = true)
    (t : List Char) : List.dropWhile isWsChar (c :: t) = c :: t :=
  dropWhile_ws_not (valHead_facts h).1 t

theorem dropWhile_ws_space (t : List Char) :
    List.dropWhile isWsChar (' ' :: t) = List.dropWhile isWsChar t := by
  rw [List.dropWhile_cons, show isWsChar ' ' = true from rfl]
  simp

theorem jsize_pos (v : JVal) : 1 ≤ jsize v := by
  cases v <;> simp [jsize]

theorem numStop_of_sep {c : Char} (t : List Char)
    (h : c = ']' ∨ c = ',' ∨ c = rbraceC) : numStop (c :: t) := by
  rcases h with h | h | h <;> subst h <;>
    exact ⟨by decide, by decide, by decide, by decide⟩

/-- Head structure of a printed nonempty array body. -/
theorem dumpArr_cons_eq (x : JVal) (xs : List JVal) :
    ∃ u, dumpArr (x :: xs) = dumpVal x ++ u := by
  cases xs with
  | nil => exact ⟨[], by simp [dumpArr]⟩
  | cons y ys => exact ⟨',' :: ' ' :: dumpArr (y :: ys), rfl⟩

/-- Head structure of a printed nonempty object body. -/
theorem dumpObj_cons_eq (m : String × JVal) (ms : List (String × JVal)) :
    ∃ T, dumpObj (m :: ms) = '"' :: T := by
  obtain ⟨k, v⟩ := m
  cases ms with
  | nil => exact ⟨_, rfl⟩
  | cons m2 ms2 => exact ⟨_, rfl⟩

/-! ## The parser inverts the printer (with sufficient fuel) -/

theorem parse_dump_fuel : ∀ fuel : Nat,
    (∀ v rest, storable v = true → jsize v ≤ fuel → numStop rest →
      parseVal fuel (dumpVal v ++ rest) = some (v, rest)) ∧
    (∀ xs rest, storableList xs = true → jsizeList xs ≤ fuel → xs ≠ [] →
      parseElems fuel (dumpArr xs ++ ']' :: rest) = some (xs, rest)) ∧
    (∀ fs rest, storableFields fs = true → jsizeFields fs ≤ fuel → fs ≠ [] →
      parseMembers fuel (dumpObj fs ++ rbraceC :: rest) = some (fs, rest)) := by
  intro fuel
  induction fuel with
  | zero =>
    refine ⟨?_, ?_, ?_⟩
    · intro v rest _ hsz _
      exact absurd hsz (by have := jsize_pos v; omega)
    · intro xs rest _ hsz hne
      cases xs with
      | nil => exact absurd rfl hne
      | cons x t =>
        exact absurd hsz (by simp only [jsizeList]; omega)
    · intro fs rest _ hsz hne
      cases fs with
      | nil => exact absurd rfl hne
      | cons m t =>
        obtain ⟨k, v⟩ := m
        exact absurd hsz (by simp only [jsizeFields]; omega)
  | succ f ih =>
    obtain ⟨ihv, ihe, ihm⟩ := ih
    refine ⟨?_, ?_, ?_⟩
    · -- parseVal
      intro v rest hs hsz hns
      cases v with
      | null => rfl
      | bool b => cases b <;> rfl
      | num q =>
        have hden : q.den = 1 := of_decide_eq_true hs
        have h1 : dumpVal (.num q) = intChars q.num := by
          show numChars q = intChars q.num
          unfold numChars
          rw [if_pos hden]
        rw [h1]
        by_cases hq : q.num < 0
        · have h2 : intChars q.num = '-' :: natChars q.num.natAbs := by
            unfold intChars
            rw [if_pos hq]
          rw [h2, List.cons_append]
          have h3 : parseVal (f + 1)
              ('-' :: (natChars q.num.natAbs ++ rest)) =
              (parseNumber ('-' :: (natChars q.num.natAbs ++ rest))).map
                (fun p => (JVal.num p.1, p.2)) := rfl
          rw [h3]
          rw [show ('-' :: (natChars q.num.natAbs ++ rest)) =
              intChars q.num ++ rest from by rw [h2]; rfl]
          rw [parseNumber_intChars _ _ hns, ratCast_num hden]
          rfl
        · have h2 : intChars q.num = natChars q.num.toNat := by
            unfold intChars
            rw [if_neg hq]
          obtain ⟨c, t, hL, hd⟩ := natChars_head_digit q.num.toNat
          rw [h2, hL, List.cons_append]
          simp only [parseVal]
          rw [if_neg (isDigit_ne hd (by decide)),
            if_neg (isDigit_ne hd (by decide)),
            if_neg (isDigit_ne hd (by decide)),
            if_neg (isDigit_ne hd (by decide)),
            if_pos (by rw [hd]; simp)]
          rw [show c :: (t ++ rest) = (c :: t) ++ rest from rfl, ← hL, ← h2]
          rw [parseNumber_intChars _ _ hns, ratCast_num hden]
          rfl
      | str s =>
        have h1 : dumpVal (.str s) ++ rest =
            '"' :: (escString s ++ '"' :: rest) := by
          show ('"' :: (escString s ++ ['"'])) ++ rest = _
          simp [List.append_assoc]
        rw [h1]
        have h3 : parseVal (f + 1) ('"' :: (escString s ++ '"' :: rest)) =
            (parseStringBody ((escString s ++ '"' :: rest).length + 1)
              (escString s ++ '"' :: rest)).map
              (fun p => (JVal.str ⟨p.1⟩, p.2)) := rfl
        rw [h3]
        rw [show escString s = s.toList.flatMap escChar from rfl]
        have hlen : s.toList.length <
            (s.toList.flatMap escChar ++ '"' :: rest).length + 1 := by
          have := length_le_flatMap_escChar s.toList
          simp only [List.length_append, List.length_cons]
          omega
        rw [parseStringBody_escape s.toList rest _ hlen]
        rfl
      | arr xs =>
        cases xs with
        | nil => rfl
        | cons x xs2 =>
          have hsx : storable x = true ∧ storableList xs2 = true := by
            simpa [storable, storableList, Bool.and_eq_true] using hs
          obtain ⟨u, hu⟩ := dumpArr_cons_eq x xs2
          obtain ⟨c, t, hch, hcv⟩ := dumpVal_head hsx.1
          have hX : dumpArr (x :: xs2) ++ ']' :: rest =
              c :: (t ++ (u ++ ']' :: rest)) := by
            rw [hu, hch]
            simp [List.append_assoc]
          have houter : dumpVal (.arr (x :: xs2)) ++ rest =
              '[' :: (dumpArr (x :: xs2) ++ ']' :: rest) := by
            show ('[' :: (dumpArr (x :: xs2) ++ [']'])) ++ rest = _
            simp [List.append_assoc]
          rw [houter]
          have h3 : parseVal (f + 1)
              ('[' :: (dumpArr (x :: xs2) ++ ']' :: rest)) =
              (match List.dropWhile isWsChar
                  (dumpArr (x :: xs2) ++ ']' :: rest) with
               | [] => none
               | c2 :: r2 =>
                 if c2 = ']' then some (.arr [], r2)
                 else (parseElems f (c2 :: r2)).map
                   (fun p => (JVal.arr p.1, p.2))) := rfl
          rw [h3, hX, dropWhile_ws_of_valHead hcv]
          dsimp only
          rw [if_neg (valHead_facts hcv).2.1]
          rw [← hX]
          rw [ihe (x :: xs2) rest hs
            (by
              have : jsize (.arr (x :: xs2)) = 1 + jsizeList (x :: xs2) := rfl
              omega)
            (by simp)]
          rfl
      | obj fs =>
        cases fs with
        | nil => rfl
        | cons m ms =>
          obtain ⟨T, hT⟩ := dumpObj_cons_eq m ms
          have houter : dumpVal (.obj (m :: ms)) ++ rest =
              lbraceC :: (dumpObj (m :: ms) ++ rbraceC :: rest) := by
            show (lbraceC :: (dumpObj (m :: ms) ++ [rbraceC])) ++ rest = _
            simp [List.append_assoc]
          rw [houter]
          have h3 : parseVal (f + 1)
              (lbraceC :: (dumpObj (m :: ms) ++ rbraceC :: rest)) =
              (match List.dropWhile isWsChar
                  (dumpObj (m :: ms) ++ rbraceC :: rest) with
               | [] => none
               | c2 :: r2 =>
                 if c2 = rbraceC then some (.obj [], r2)
                 else (parseMembers f (c2 :: r2)).map
                   (fun p => (JVal.obj p.1, p.2))) := rfl
          have hX : dumpObj (m :: ms) ++ rbraceC :: rest =
              '"' :: (T ++ rbraceC :: rest) := by
            rw [hT]
            simp [List.append_assoc]
          rw [h3, hX, dropWhile_ws_not (by decide) _]
          dsimp only
          rw [if_neg (by decide)]
          rw [← hX]
          rw [ihm (m :: ms) rest hs
            (by
              have : jsize (.obj (m :: ms)) = 1 + jsizeFields (m :: ms) := rfl
              omega)
            (by simp)]
          rfl
    · -- parseElems
      intro xs rest hsl hsz hne
      cases xs with
      | nil => exact absurd rfl hne
      | cons x xs2 =>
        have hsx : storable x = true ∧ storableList xs2 = true := by
          simpa [storableList, Bool.and_eq_true] using hsl
        have hjs : jsizeList (x :: xs2) = 1 + jsize x + jsizeList xs2 := rfl
        cases xs2 with
        | nil =>
          have h1 : dumpArr [x] ++ ']' :: rest = dumpVal x ++ ']' :: rest := rfl
          rw [h1]
          simp only [parseElems]
          rw [ihv x (']' :: rest) hsx.1 (by omega)
            (numStop_of_sep _ (Or.inl rfl))]
          dsimp only
          rw [dropWhile_ws_not (by decide) _]
          rfl
        | cons y ys =>
          have h1 : dumpArr (x :: y :: ys) ++ ']' :: rest =
              dumpVal x ++ (',' :: ' ' :: (dumpArr (y :: ys) ++ ']' :: rest)) := by
            show (dumpVal x ++ ',' :: ' ' :: dumpArr (y :: ys)) ++ ']' :: rest = _
            simp [List.append_assoc]
          rw [h1]
          simp only [parseElems]
          rw [ihv x _ hsx.1
            (by have := jsize_pos x; omega)
            (numStop_of_sep _ (Or.inr (Or.inl rfl)))]
          dsimp only
          rw [dropWhile_ws_not (by decide) _]
          dsimp only
          rw [if_neg (by decide), if_pos rfl]
          rw [dropWhile_ws_space]
          obtain ⟨u2, hu2⟩ := dumpArr_cons_eq y ys
          have hsy : storable y = true := by
            have := hsx.2
            simp only [storableList, Bool.and_eq_true] at this
            exact this.1
          obtain ⟨c2, t2, hch2, hcv2⟩ := dumpVal_head hsy
          have hX2 : dumpArr (y :: ys) ++ ']' :: rest =
              c2 :: (t2 ++ (u2 ++ ']' :: rest)) := by
            rw [hu2, hch2]
            simp [List.append_assoc]
          rw [hX2, dropWhile_ws_of_valHead hcv2, ← hX2]
          rw [ihe (y :: ys) rest hsx.2
            (by have := jsize_pos x; omega)
            (by simp)]
    · -- parseMembers
      intro fs rest hsf hsz hne
      cases fs with
      | nil => exact absurd rfl hne
      | cons m ms =>
        obtain ⟨k, v⟩ := m
        have hsv : storable v = true ∧ storableFields ms = true := by
          simpa [storableFields, Bool.and_eq_true] using hsf
        have hjs : jsizeFields ((k, v) :: ms) = 1 + jsize v + jsizeFields ms :=
          rfl
        obtain ⟨cv, tv, hchv, hcvv⟩ := dumpVal_head hsv.1
        cases ms with
        | nil =>
          have h1 : dumpObj [(k, v)] ++ rbraceC :: rest =
              '"' :: (escString k ++ '"' ::
                (':' :: ' ' :: (dumpVal v ++ rbraceC :: rest))) := by
            show ('"' :: (escString k ++ '"' :: ':' :: ' ' :: dumpVal v)) ++
              rbraceC :: rest = _
            simp [List.append_assoc]
          rw [h1]
          simp only [parseMembers]
          simp only [if_true]
          rw [show escString k = k.toList.flatMap escChar from rfl]
          have hlen : k.toList.length <
              (k.toList.flatMap escChar ++ '"' ::
                (':' :: ' ' :: (dumpVal v ++ rbraceC :: rest))).length + 1 := by
            have := length_le_flatMap_escChar k.toList
            simp only [List.length_append, List.length_cons]
            omega
          rw [parseStringBody_escape k.toList _ _ hlen]
          dsimp only
          rw [dropWhile_ws_not (by decide) _]
          dsimp only
          rw [if_pos rfl]
          rw [dropWhile_ws_space]
          have hXv : dumpVal v ++ rbraceC :: rest =
              cv :: (tv ++ rbraceC :: rest) := by
            rw [hchv]
            simp
          rw [hXv, dropWhile_ws_of_valHead hcvv, ← hXv]
          rw [ihv v (rbraceC :: rest) hsv.1 (by omega)
            (numStop_of_sep _ (Or.inr (Or.inr rfl)))]
          dsimp only
          rw [dropWhile_ws_not (by decide) _]
          dsimp only
          rw [if_pos rfl, stringMk_toList]
        | cons m2 ms2 =>
          have h1 : dumpObj ((k, v) :: m2 :: ms2) ++ rbraceC :: rest =
              '"' :: (escString k ++ '"' ::
                (':' :: ' ' :: (dumpVal v ++ ',' :: ' ' ::
                  (dumpObj (m2 :: ms2) ++ rbraceC :: rest)))) := by
            show (('"' :: (escString k ++ '"' :: ':' :: ' ' :: dumpVal v)) ++
              ',' :: ' ' :: dumpObj (m2 :: ms2)) ++ rbraceC :: rest = _
            simp [List.append_assoc]
          rw [h1]
          simp only [parseMembers]
          simp only [if_true]
          rw [show escString k = k.toList.flatMap escChar from rfl]
          have hlen : k.toList.length <
              (k.toList.flatMap escChar ++ '"' ::
                (':' :: ' ' :: (dumpVal v ++ ',' :: ' ' ::
                  (dumpObj (m2 :: ms2) ++ rbraceC :: rest)))).length + 1 := by
            have := length_le_flatMap_escChar k.toList
            simp only [List.length_append, List.length_cons]
            omega
          rw [parseStringBody_escape k.toList _ _ hlen]
          dsimp only
          rw [dropWhile_ws_not (by decide) _]
          dsimp only
          rw [if_pos rfl]
          rw [dropWhile_ws_space]
          have hXv : dumpVal v ++ ',' :: ' ' ::
              (dumpObj (m2 :: ms2) ++ rbraceC :: rest) =
              cv :: (tv ++ ',' :: ' ' ::
                (dumpObj (m2 :: ms2) ++ rbraceC :: rest)) := by
            rw [hchv]
            simp
          rw [hXv, dropWhile_ws_of_valHead hcvv, ← hXv]
          rw [ihv v _ hsv.1 (by omega)
            (numStop_of_sep _ (Or.inr (Or.inl rfl)))]
          dsimp only
          rw [dropWhile_ws_not (by decide) _]
          dsimp only
          rw [if_neg (by decide), if_pos rfl]
          rw [dropWhile_ws_space]
          obtain ⟨T2, hT2⟩ := dumpObj_cons_eq m2 ms2
          have hX2 : dumpObj (m2 :: ms2) ++ rbraceC :: rest =
              '"' :: (T2 ++ rbraceC :: rest) := by
            rw [hT2]
            simp [List.append_assoc]
          rw [hX2, dropWhile_ws_not (by decide) _, ← hX2]
          rw [ihm (m2 :: ms2) rest hsv.2
            (by have := jsize_pos v; omega)
            (by simp)]
          rw [stringMk_toList]

theorem numChars_ne_nil (q : ℚ) : numChars q ≠ [] := by
  unfold numChars
  by_cases hden : q.den = 1
  · rw [if_pos hden]
    unfold intChars
    by_cases hq : q.num < 0
    · rw [if_pos hq]
      simp
    · rw [if_neg hq]
      exact natCharsAux_ne_nil (Nat.lt_succ_self _)
  · rw [if_neg hden]
    simp

theorem dump_length_ge : ∀ n : Nat,
    (∀ v, jsize v ≤ n → jsize v ≤ (dumpVal v).length) ∧
    (∀ xs, jsizeList xs ≤ n → jsizeList xs ≤ (dumpArr xs).length + 1) ∧
    (∀ fs, jsizeFields fs ≤ n → jsizeFields fs ≤ (dumpObj fs).length + 1) := by
  intro n
  induction n with
  | zero =>
    refine ⟨?_, ?_, ?_⟩
    · intro v hsz
      exact absurd hsz (by have := jsize_pos v; omega)
    · intro xs hsz
      cases xs with
      | nil => simp [jsizeList]
      | cons x t => exact absurd hsz (by simp only [jsizeList]; omega)
    · intro fs hsz
      cases fs with
      | nil => simp [jsizeFields]
      | cons m t =>
        obtain ⟨k, v⟩ := m
        exact absurd hsz (by simp only [jsizeFields]; omega)
  | succ n ih =>
    obtain ⟨ihv, ihe, ihm⟩ := ih
    refine ⟨?_, ?_, ?_⟩
    · intro v hsz
      cases v with
      | null => decide
      | bool b => cases b <;> decide
      | num q =>
        have h1 : jsize (JVal.num q) = 1 := rfl
        rw [h1]
        have := numChars_ne_nil q
        show 1 ≤ (numChars q).length
        cases hc : numChars q with
        | nil => exact absurd hc this
        | cons c t => simp
      | str s =>
        show (1 : Nat) ≤ ('"' :: (escString s ++ ['"'])).length
        simp
      | arr xs =>
        have h1 : jsize (JVal.arr xs) = 1 + jsizeList xs := rfl
        have h2 : (dumpVal (JVal.arr xs)).length = (dumpArr xs).length + 2 := by
          show ('[' :: (dumpArr xs ++ [']'])).length = _
          simp
        rw [h1, h2]
        have := ihe xs (by rw [h1] at hsz; omega)
        omega
      | obj fs =>
        have h1 : jsize (JVal.obj fs) = 1 + jsizeFields fs := rfl
        have h2 : (dumpVal (JVal.obj fs)).length = (dumpObj fs).length + 2 := by
          show (lbraceC :: (dumpObj fs ++ [rbraceC])).length = _
          simp
        rw [h1, h2]
        have := ihm fs (by rw [h1] at hsz; omega)
        omega
    · intro xs hsz
      cases xs with
      | nil => simp [jsizeList]
      | cons x t =>
        have h1 : jsizeList (x :: t) = 1 + jsize x + jsizeList t := rfl
        have hx := ihv x (by rw [h1] at hsz; have := jsize_pos x; omega)
        cases t with
        | nil =>
          have h2 : dumpArr [x] = dumpVal x := rfl
          rw [h1, h2]
          simp only [jsizeList]
          omega
        | cons y ys =>
          have h2 : dumpArr (x :: y :: ys) =
              dumpVal x ++ ',' :: ' ' :: dumpArr (y :: ys) := rfl
          have ht := ihe (y :: ys)
            (by rw [h1] at hsz; have := jsize_pos x; omega)
          rw [h1, h2]
          simp only [List.length_append, List.length_cons]
          omega
    · intro fs hsz
      cases fs with
      | nil => simp [jsizeFields]
      | cons m ms =>
        obtain ⟨k, v⟩ := m
        have h1 : jsizeFields ((k, v) :: ms) = 1 + jsize v + jsizeFields ms :=
          rfl
        have hx := ihv v (by rw [h1] at hsz; have := jsize_pos v; omega)
        cases ms with
        | nil =>
          have h2 : dumpObj [(k, v)] =
              '"' :: (escString k ++ '"' :: ':' :: ' ' :: dumpVal v) := rfl
          rw [h1, h2]
          simp only [jsizeFields, List.length_cons, List.length_append]
          omega
        | cons m2 ms2 =>
          have h2 : dumpObj ((k, v) :: m2 :: ms2) =
              ('"' :: (escString k ++ '"' :: ':' :: ' ' :: dumpVal v)) ++
                ',' :: ' ' :: dumpObj (m2 :: ms2) := rfl
          have ht := ihm (m2 :: ms2)
            (by rw [h1] at hsz; have := jsize_pos v; omega)
          rw [h1, h2]
          simp only [List.length_append, List.length_cons]
          omega

/-- `json.loads` inverts `json.dumps` on integral-numbered values. -/
theorem loads_dumps {v : JVal} (hs : storable v = true) :
    loads (dumps v) = some v := by
  unfold loads dumps
  obtain ⟨c, t, hch, hcv⟩ := dumpVal_head hs
  rw [show (String.mk (dumpVal v)).toList = dumpVal v from rfl]
  rw [hch, dropWhile_ws_of_valHead hcv, ← hch]
  have hfuel : jsize v ≤ (String.mk (dumpVal v)).length + 1 := by
    have h1 := (dump_length_ge (jsize v)).1 v le_rfl
    have h2 : (String.mk (dumpVal v)).length = (dumpVal v).length := rfl
    omega
  have hp := (parse_dump_fuel ((String.mk (dumpVal v)).length + 1)).1 v []
    hs hfuel trivial
  rw [List.append_nil] at hp
  rw [hp]
  rfl

theorem hexDigitChar_ne_nl {n : Nat} (h : n < 16) : hexDigitChar n ≠ '\n' := by
  interval_cases n <;> decide

theorem escChar_no_nl (c : Char) : '\n' ∉ escChar c := by
  unfold escChar
  split_ifs with h1 h2 h3 h4 h5 h6 h7 h8
  · decide
  · decide
  · decide
  · decide
  · decide
  · decide
  · decide
  · intro hm
    simp only [List.mem_cons, List.not_mem_nil, or_false] at hm
    rcases hm with h|h|h|h|h|h
    · exact absurd h (by decide)
    · exact absurd h (by decide)
    · exact absurd h (by decide)
    · exact absurd h (by decide)
    · exact hexDigitChar_ne_nl (by omega) h.symm
    · exact hexDigitChar_ne_nl (Nat.mod_lt _ (by omega)) h.symm
  · intro hm
    rw [List.mem_singleton] at hm
    exact h3 hm.symm

theorem natCharsAux_no_nl {fuel n : Nat} (h : n < fuel) :
    '\n' ∉ natCharsAux fuel n := by
  intro hm
  exact absurd (natCharsAux_digits h _ hm) (by decide)

theorem numChars_no_nl (q : ℚ) : '\n' ∉ numChars q := by
  unfold numChars
  split_ifs with h
  · unfold intChars
    split_ifs with h2
    · intro hm
      rcases List.mem_cons.mp hm with h3|h3
      · exact absurd h3 (by decide)
      · exact natCharsAux_no_nl (Nat.lt_succ_self _) h3
    · exact natCharsAux_no_nl (Nat.lt_succ_self _)
  · decide

theorem escString_no_nl (s : String) : '\n' ∉ escString s := by
  intro hm
  rw [escString, List.mem_flatMap] at hm
  obtain ⟨a, _, ha⟩ := hm
  exact escChar_no_nl a ha

theorem dump_no_nl : ∀ n : Nat,
    (∀ v, jsize v ≤ n → '\n' ∉ dumpVal v) ∧
    (∀ xs, jsizeList xs ≤ n → '\n' ∉ dumpArr xs) ∧
    (∀ fs, jsizeFields fs ≤ n → '\n' ∉ dumpObj fs) := by
  intro n
  induction n with
  | zero =>
    refine ⟨?_, ?_, ?_⟩
    · intro v hsz
      exact absurd hsz (by have := jsize_pos v; omega)
    · intro xs hsz
      cases xs with
      | nil => simp [dumpArr]
      | cons x t => exact absurd hsz (by simp only [jsizeList]; omega)
    · intro fs hsz
      cases fs with
      | nil => simp [dumpObj]
      | cons m t =>
        obtain ⟨k, v⟩ := m
        exact absurd hsz (by simp only [jsizeFields]; omega)
  | succ n ih =>
    obtain ⟨ihv, ihe, ihm⟩ := ih
    refine ⟨?_, ?_, ?_⟩
    · intro v hsz
      cases v with
      | null => decide
      | bool b => cases b <;> decide
      | num q => exact numChars_no_nl q
      | str s =>
        intro hm
        rcases List.mem_cons.mp hm with h|h
        · exact absurd h (by decide)
        · rcases List.mem_append.mp h with h2|h2
          · exact escString_no_nl s h2
          · exact absurd (List.mem_singleton.mp h2) (by decide)
      | arr xs =>
        intro hm
        rcases List.mem_cons.mp hm with h|h
        · exact absurd h (by decide)
        · rcases List.mem_append.mp h with h2|h2
          · exact ihe xs (by
              have h1 : jsize (JVal.arr xs) = 1 + jsizeList xs := rfl
              rw [h1] at hsz; omega) h2
          · exact absurd (List.mem_singleton.mp h2) (by decide)
      | obj fs =>
        intro hm
        rcases List.mem_cons.mp hm with h|h
        · exact absurd h (by decide)
        · rcases List.mem_append.mp h with h2|h2
          · exact ihm fs (by
              have h1 : jsize (JVal.obj fs) = 1 + jsizeFields fs := rfl
              rw [h1] at hsz; omega) h2
          · exact absurd (List.mem_singleton.mp h2) (by decide)
    · intro xs hsz
      cases xs with
      | nil => simp [dumpArr]
      | cons x t =>
        have h1 : jsizeList (x :: t) = 1 + jsize x + jsizeList t := rfl
        have hx := ihv x (by rw [h1] at hsz; have := jsize_pos x; omega)
        cases t with
        | nil => exact hx
        | cons y ys =>
          intro hm
          have h2 : dumpArr (x :: y :: ys) =
              dumpVal x ++ ',' :: ' ' :: dumpArr (y :: ys) := rfl
          rw [h2] at hm
          rcases List.mem_append.mp hm with h3|h3
          · exact hx h3
          · rcases List.mem_cons.mp h3 with h4|h4
            · exact absurd h4 (by decide)
            · rcases List.mem_cons.mp h4 with h5|h5
              · exact absurd h5 (by decide)
              · exact ihe (y :: ys)
                  (by rw [h1] at hsz; have := jsize_pos x; omega) h5
    · intro fs hsz
      cases fs with
      | nil => simp [dumpObj]
      | cons m ms =>
        obtain ⟨k, v⟩ := m
        have h1 : jsizeFields ((k, v) :: ms) = 1 + jsize v + jsizeFields ms :=
          rfl
        have hx := ihv v (by rw [h1] at hsz; have := jsize_pos v; omega)
        have hmemb : '\n' ∉
            ('"' :: (escString k ++ '"' :: ':' :: ' ' :: dumpVal v)) := by
          intro hm
          rcases List.mem_cons.mp hm with h2|h2
          · exact absurd h2 (by decide)
          · rcases List.mem_append.mp h2 with h3|h3
            · exact escString_no_nl k h3
            · rcases List.mem_cons.mp h3 with h4|h4
              · exact absurd h4 (by decide)
              · rcases List.mem_cons.mp h4 with h5|h5
                · exact absurd h5 (by decide)
                · rcases List.mem_cons.mp h5 with h6|h6
                  · exact absurd h6 (by decide)
                  · exact hx h6
        cases ms with
        | nil => exact hmemb
        | cons m2 ms2 =>
          intro hm
          have h2 : dumpObj ((k, v) :: m2 :: ms2) =
              ('"' :: (escString k ++ '"' :: ':' :: ' ' :: dumpVal v)) ++
                ',' :: ' ' :: dumpObj (m2 :: ms2) := rfl
          rw [h2] at hm
          rcases List.mem_append.mp hm with h3|h3
          · exact hmemb h3
          · rcases List.mem_cons.mp h3 with h4|h4
            · exact absurd h4 (by decide)
            · rcases List.mem_cons.mp h4 with h5|h5
              · exact absurd h5 (by decide)
              · exact ihm (m2 :: ms2)
                  (by rw [h1] at hsz; have := jsize_pos v; omega) h5

theorem char_eq_of_toNat_eq {c : Char} {n : Nat} (h : c.toNat = n) :
    c = Char.ofNat n := by
  rw [← h, Char.ofNat_toNat]

theorem pyIsSpace_mem {c : Char} (h : pyIsSpace c = true) :
    c = ' ' ∨ c = '\t' ∨ c = '\n' ∨ c = '\r' ∨ c = '\x0b' ∨ c = '\x0c' ∨
    c = '\x1c' ∨ c = '\x1d' ∨ c = '\x1e' ∨ c = '\x1f' ∨ c = '\x85' ∨
    c = '\xa0' ∨ c = ' ' ∨ c = ' ' := by
  unfold pyIsSpace at h
  simp only [Bool.or_eq_true, decide_eq_true_eq] at h
  rcases h with
      ((((((((((((h|h)|h)|h)|h)|h)|h)|h)|h)|h)|h)|h)|h)|h <;>
    first
      | (subst h; decide)
      | (rw [char_eq_of_toNat_eq h]; decide)

theorem pyIsSpace_false_of_isDigit {c : Char} (h : c.isDigit = true) :
    pyIsSpace c = false := by
  cases hps : pyIsSpace c
  · rfl
  · exfalso
    rcases pyIsSpace_mem hps with h1|h1|h1|h1|h1|h1|h1|h1|h1|h1|h1|h1|h1|h1 <;>
      (subst h1; exact absurd h (by decide))

theorem valHead_not_space {c : Char} (h : valHead c = true) :
    pyIsSpace c = false := by
  unfold valHead at h
  simp only [Bool.or_eq_true, decide_eq_true_eq] at h
  rcases h with ((((((h|h)|h)|h)|h)|h)|h)|h
  · subst h; decide
  · subst h; decide
  · subst h; decide
  · subst h; decide
  · subst h; decide
  · exact pyIsSpace_false_of_isDigit h
  · subst h; decide
  · subst h; decide

theorem exists_getLast_mem {l : List Char} (h : l ≠ []) :
    ∃ c, l.getLast? = some c ∧ c ∈ l := by
  induction l with
  | nil => exact absurd rfl h
  | cons a t ih =>
    cases t with
    | nil => exact ⟨a, rfl, List.mem_singleton_self a⟩
    | cons b u =>
      obtain ⟨c, hc, hm⟩ := ih (by simp)
      exact ⟨c, by rw [List.getLast?_cons_cons]; exact hc,
        List.mem_cons_of_mem a hm⟩

theorem getLast?_cons_of_ne_nil {a : Char} {l : List Char} (h : l ≠ []) :
    (a :: l).getLast? = l.getLast? := by
  cases l with
  | nil => exact absurd rfl h
  | cons b t => exact List.getLast?_cons_cons

theorem natChars_getLast_digit (n : Nat) :
    ∃ c, (natChars n).getLast? = some c ∧ c.isDigit = true := by
  obtain ⟨c, hc, hm⟩ :=
    exists_getLast_mem (natCharsAux_ne_nil (Nat.lt_succ_self n))
  exact ⟨c, hc, natCharsAux_digits (Nat.lt_succ_self n) c hm⟩

theorem dumpVal_last {v : JVal} (hs : storable v = true) :
    ∃ c, (dumpVal v).getLast? = some c ∧ pyIsSpace c = false := by
  cases v with
  | null => exact ⟨'l', by decide, by decide⟩
  | bool b =>
    cases b with
    | true => exact ⟨'e', by decide, by decide⟩
    | false => exact ⟨'e', by decide, by decide⟩
  | num q =>
    have hden : q.den = 1 := by simpa [storable] using hs
    have h1 : dumpVal (JVal.num q) = intChars q.num := by
      show numChars q = _
      rw [numChars, if_pos hden]
    rw [h1]
    unfold intChars
    by_cases hneg : q.num < 0
    · rw [if_pos hneg]
      obtain ⟨c, hc, hd⟩ := natChars_getLast_digit q.num.natAbs
      refine ⟨c, ?_, pyIsSpace_false_of_isDigit hd⟩
      have hne : natChars q.num.natAbs ≠ [] :=
        natCharsAux_ne_nil (Nat.lt_succ_self _)
      rw [getLast?_cons_of_ne_nil hne]
      exact hc
    · rw [if_neg hneg]
      obtain ⟨c, hc, hd⟩ := natChars_getLast_digit q.num.toNat
      exact ⟨c, hc, pyIsSpace_false_of_isDigit hd⟩
  | str s =>
    refine ⟨'"', ?_, by decide⟩
    show ('"' :: (escString s ++ ['"'])).getLast? = some '"'
    rw [← List.cons_append, List.getLast?_concat]
  | arr xs =>
    refine ⟨']', ?_, by decide⟩
    show ('[' :: (dumpArr xs ++ [']'])).getLast? = some ']'
    rw [← List.cons_append, List.getLast?_concat]
  | obj fs =>
    refine ⟨rbraceC, ?_, by decide⟩
    show (lbraceC :: (dumpObj fs ++ [rbraceC])).getLast? = some rbraceC
    rw [← List.cons_append, List.getLast?_concat]

theorem dropWhile_not_space {l : List Char}
    (h : ∀ c, l.head? = some c → pyIsSpace c = false) :
    l.dropWhile pyIsSpace = l := by
  cases l with
  | nil => rfl
  | cons c t =>
    rw [List.dropWhile_cons, h c rfl]
    simp

theorem pyStrip_eq_self {l : List Char}
    (hh : ∀ c, l.head? = some c → pyIsSpace c = false)
    (hl : ∀ c, l.getLast? = some c → pyIsSpace c = false) :
    pyStrip ⟨l⟩ = ⟨l⟩ := by
  unfold pyStrip
  rw [show (String.mk l).toList = l from rfl]
  rw [dropWhile_not_space hh]
  rw [dropWhile_not_space
    (fun c hc => hl c (by rwa [List.head?_reverse] at hc))]
  rw [List.reverse_reverse]

theorem pyStrip_dump {v : JVal} (hs : storable v = true) :
    pyStrip ⟨dumpVal v⟩ = ⟨dumpVal v⟩ := by
  apply pyStrip_eq_self
  · intro c hc
    obtain ⟨c2, t, hch, hcv⟩ := dumpVal_head hs
    rw [hch, List.head?_cons] at hc
    cases hc
    exact valHead_not_space hcv
  · intro c hc
    obtain ⟨c2, hcl, hsp⟩ := dumpVal_last hs
    rw [hcl] at hc
    cases hc
    exact hsp

theorem dump_ne_empty {v : JVal} (hs : storable v = true) :
    (String.mk (dumpVal v)).isEmpty = false := by
  obtain ⟨c, t, hch, _⟩ := dumpVal_head hs
  rw [Bool.eq_false_iff]
  intro he
  have h2 := (String.isEmpty_iff _).mp he
  have hd : dumpVal v = [] := by
    have h3 := congrArg String.data h2
    simpa using h3
  rw [hch] at hd
  cases hd

theorem splitNl_append_line {line tail : List Char} (h : '\n' ∉ line) :
    splitNl (line ++ '\n' :: tail) = line :: splitNl tail := by
  induction line with
  | nil =>
    show splitNl ('\n' :: tail) = [] :: splitNl tail
    simp only [splitNl, if_true]
  | cons c t ih =>
    have hc : ¬ c = '\n' := fun he => h (he ▸ List.mem_cons_self c t)
    show splitNl (c :: (t ++ '\n' :: tail)) = (c :: t) :: splitNl tail
    simp only [splitNl]
    rw [if_neg hc, ih (fun hm => h (List.mem_cons_of_mem c hm))]

theorem loadLines_save : ∀ cases : List JVal, storableList cases = true →
    loadLines (splitNl
      ((cases.map (fun c => dumpVal c ++ ['\n'])).flatten)) = .ok cases := by
  intro cases
  induction cases with
  | nil => intro _; rfl
  | cons c cs ih =>
    intro h
    have hsc : storable c = true ∧ storableList cs = true := by
      simpa [storableList, Bool.and_eq_true] using h
    have hflat : ((c :: cs).map (fun v => dumpVal v ++ ['\n'])).flatten =
        dumpVal c ++ '\n' :: (cs.map (fun v => dumpVal v ++ ['\n'])).flatten := by
      simp [List.append_assoc]
    rw [hflat]
    rw [splitNl_append_line ((dump_no_nl (jsize c)).1 c le_rfl)]
    simp only [loadLines]
    rw [pyStrip_dump hsc.1]
    rw [if_neg (by rw [dump_ne_empty hsc.1]; exact Bool.false_ne_true)]
    rw [show (String.mk (dumpVal c)) = dumps c from rfl, loads_dumps hsc.1]
    rw [ih hsc.2]

/-- C10: Round-trip through the case store — for every list of case records
(JSON values whose numbers are all integers, which is what the case
generator produces), `load_cases` applied to the file content written by
`save_cases` returns exactly the input list, field for field and in
order. -/
theorem c10_case_store_roundtrip (cases : List JVal)
    (h : storableList cases = true) :
    load_cases (save_cases cases) = .ok cases := by
  unfold load_cases save_cases
  exact loadLines_save cases h

theorem c10_witness :
    storableList [JVal.obj [("case_id", JVal.str "freelancer-unpaid"),
      ("topic", JVal.str "미수금"), ("status", JVal.str "todo"),
      ("last_run_at", JVal.null)]] = true ∧
    load_cases (save_cases [JVal.obj [("case_id",
        JVal.str "freelancer-unpaid"), ("topic", JVal.str "미수금"),
        ("status", JVal.str "todo"), ("last_run_at", JVal.null)]]) =
      .ok [JVal.obj [("case_id", JVal.str "freelancer-unpaid"),
        ("topic", JVal.str "미수금"), ("status", JVal.str "todo"),
        ("last_run_at", JVal.null)]] :=
  ⟨rfl, c10_case_store_roundtrip _ rfl⟩

end MoneyKeeper
